import Mathlib

/-!
# LEDCube: a 3D snake game on an 8×8×8 LED cube

Shallow embedding of `LEDCube/ledCube.c` and proofs about it.

Modelling conventions.

* The C globals `Snake_size`, `Snake_head`/`Snake_tail` (the doubly linked list of
  segments), `Snake_currentDirection[3]` and `Cube_map[64]` are the fields of one
  `State` record that every function receives and returns.
* The linked list is the list of its segments read from `Snake_head` along `Next`;
  `Snake_tail` is its last element.  Dereferencing a `NULL` link is undefined in C
  and is the result `none` here.
* `int` is `Int`.  Signed overflow is undefined in C and is not modelled.
* A `char` of `Cube_map` is the natural number of its bit pattern; storing an
  `int` into it keeps the low eight bits (`% 256`).  The complement `~v` of a
  32-bit `int` with bit pattern `v` has bit pattern `4294967295 - v`.
* `rand()` is an oracle `rnd : Nat → Nat`: `rnd k` is the value returned by the
  `k`-th call.  The state counts the calls made so far in `rand_calls`.
* The `do … while` loop of `Cube_GenerateApple` has no bound on its iterations; it
  is run with a fuel argument and yields `none` when the fuel runs out.
* The hardware is outside the program: the samples of the joystick are an oracle
  `adc : Nat → Int × Int`, one pair per iteration of the game loop, and the bytes given
  to `usart_send_blocking` are collected in a list.
* A game run is described by the states at the start of the iterations of the loop of
  `Game_Start` (`Game_Running`).  For each function that reaches `Cube_GenerateApple` or
  the bit functions, a companion definition gives the globals at the call of
  `Cube_GenerateApple` (`…_generateCall`) and the coordinates passed to
  `Cube_SetBitAt`, `Cube_ClearBitAt` and `Cube_IsBitOnAt` (`…_calls`).
* Array indices and shift amounts are converted with `Int.toNat`.  The source is
  only defined for indices in `[0, 64)` and non-negative shifts below the width of
  `int`; the theorems never rely on the model outside that range.
-/

namespace LEDCube

/-! ## Data model -/

/-- Classification of a cell, `enum CellState`. -/
inductive CellState where
  | EMPTY
  | APPLE
  | SNAKE
  | WALL
deriving DecidableEq, Repr

/-- Joystick intent, `enum DirectionChange`. -/
inductive DirectionChange where
  | RIGHT
  | LEFT
  | UP
  | DOWN
  | CENTRE
deriving DecidableEq, Repr

/-- Position of one segment, the data part of `struct Snake_Segment`. -/
structure Snake_Segment where
  x : Int
  y : Int
  z : Int
deriving DecidableEq, Repr

/-- The global variables of the program. -/
structure State where
  /-- `int Snake_size`. -/
  Snake_size : Int
  /-- The segments from `Snake_head` to `Snake_tail`. -/
  Snake_body : List Snake_Segment
  /-- `int Snake_currentDirection[3]`. -/
  Snake_currentDirection : Int × Int × Int
  /-- `char Cube_map[64]`. -/
  Cube_map : List Nat
  /-- Number of calls of `rand()` made so far. -/
  rand_calls : Nat
deriving DecidableEq, Repr

/-! ## Cube functions -/

/-- `Cube_SetBitAt`: `Cube_map[i] = Cube_map[i] | 1 << z` with `i = 8 * y + x`. -/
def Cube_SetBitAt (x y z : Int) (s : State) : State :=
  let i := (8 * y + x).toNat
  { s with Cube_map := s.Cube_map.set i ((s.Cube_map.getD i 0 ||| (1 <<< z.toNat)) % 256) }

/-- `Cube_ClearBitAt`: `Cube_map[i] = Cube_map[i] & ~(1 << z)` with `i = 8 * y + x`. -/
def Cube_ClearBitAt (x y z : Int) (s : State) : State :=
  let i := (8 * y + x).toNat
  { s with
    Cube_map := s.Cube_map.set i ((s.Cube_map.getD i 0 &&& (4294967295 - (1 <<< z.toNat))) % 256) }

/-- `Cube_IsBitOnAt`: `Cube_map[i] & 1 << z` converted to `bool`. -/
def Cube_IsBitOnAt (x y z : Int) (s : State) : Bool :=
  let i := (8 * y + x).toNat
  (s.Cube_map.getD i 0 &&& (1 <<< z.toNat)) != 0

/-- `Cube_GenerateApple`: sample `rand() % 8` three times until the bit of the sampled
position is clear, then set it.  One unit of fuel is one iteration of the loop. -/
def Cube_GenerateApple (fuel : Nat) (rnd : Nat → Nat) (s : State) : Option State :=
  match fuel with
  | 0 => none
  | n + 1 =>
    let x : Int := ((rnd s.rand_calls % 8 : Nat) : Int)
    let y : Int := ((rnd (s.rand_calls + 1) % 8 : Nat) : Int)
    let z : Int := ((rnd (s.rand_calls + 2) % 8 : Nat) : Int)
    let s1 := { s with rand_calls := s.rand_calls + 3 }
    if Cube_IsBitOnAt x y z s1 != false then
      Cube_GenerateApple n rnd s1
    else
      some (Cube_SetBitAt x y z s1)

/-- `Cube_DimensionOutOfBounds`. -/
def Cube_DimensionOutOfBounds (d : Int) : Bool :=
  if d < 0 ∨ d ≥ 8 then true else false

/-- `Cube_IsSnakeSegment`: walk the list from `Snake_head` and compare positions. -/
def Cube_IsSnakeSegment (x y z : Int) (s : State) : Bool :=
  s.Snake_body.any (fun current => x == current.x && y == current.y && z == current.z)

/-- `Cube_GetCellStateAt`. -/
def Cube_GetCellStateAt (x y z : Int) (s : State) : CellState :=
  if Cube_DimensionOutOfBounds x || Cube_DimensionOutOfBounds y
      || Cube_DimensionOutOfBounds z then
    CellState.WALL
  else if Cube_IsBitOnAt x y z s then
    if Cube_IsSnakeSegment x y z s then CellState.SNAKE else CellState.APPLE
  else
    CellState.EMPTY

/-- `Cube_SetAll`: `Cube_map[i] = 1` for `i` from `0` to `63`. -/
def Cube_SetAll (s : State) : State :=
  { s with Cube_map := (List.range 64).foldl (fun map i => map.set i 1) s.Cube_map }

/-! ## Snake functions -/

/-- `Snake_AddHead`: set the bit and link a new segment in front of `Snake_head`.
`Snake_head->Prev = newHead` dereferences `Snake_head`, so an empty list gives `none`. -/
def Snake_AddHead (x y z : Int) (s : State) : Option State :=
  let s1 := Cube_SetBitAt x y z s
  match s1.Snake_body with
  | [] => none
  | head :: rest => some { s1 with Snake_body := ⟨x, y, z⟩ :: head :: rest }

/-- `Snake_PopTail`: clear the bit of `Snake_tail` and unlink it.  The new tail
`Snake_tail->Prev` is dereferenced, so fewer than two segments give `none`. -/
def Snake_PopTail (s : State) : Option State :=
  match s.Snake_body.getLast? with
  | none => none
  | some tail =>
    let s1 := Cube_ClearBitAt tail.x tail.y tail.z s
    if s1.Snake_body.length < 2 then none
    else some { s1 with Snake_body := s1.Snake_body.dropLast }

/-- `Snake_NormalStep`: insert the new head, then pop the tail. -/
def Snake_NormalStep (x y z : Int) (s : State) : Option State := do
  let s1 ← Snake_AddHead x y z s
  Snake_PopTail s1

/-- `Snake_AppleStep`: insert the new head, increment `Snake_size`, generate an apple. -/
def Snake_AppleStep (fuel : Nat) (rnd : Nat → Nat) (x y z : Int) (s : State) :
    Option State := do
  let s1 ← Snake_AddHead x y z s
  let s2 := { s1 with Snake_size := s1.Snake_size + 1 }
  Cube_GenerateApple fuel rnd s2

/-- `Snake_Init`: a single segment at the given position, then one apple step in the
current direction.  Neither the map nor the direction is reset. -/
def Snake_Init (fuel : Nat) (rnd : Nat → Nat) (x y z : Int) (s : State) : Option State :=
  let s1 := { s with Snake_body := [⟨x, y, z⟩] }
  let s2 := Cube_SetBitAt x y z s1
  let s3 := { s2 with Snake_size := 1 }
  let newX := x + s3.Snake_currentDirection.1
  let newY := y + s3.Snake_currentDirection.2.1
  let newZ := z + s3.Snake_currentDirection.2.2
  Snake_AppleStep fuel rnd newX newY newZ s3

/-- `Snake_Turn`.  The three slots of `Snake_currentDirection` are assigned one after
the other as in the source; a rebound name is the slot after the assignment. -/
def Snake_Turn (directionChange : DirectionChange) (s : State) : State :=
  let (d0, d1, d2) := s.Snake_currentDirection
  match directionChange with
  | DirectionChange.LEFT =>
    if d2 = 1 ∨ d2 = -1 then
      { s with Snake_currentDirection := (0, -1, 0) }
    else
      let d2 := d0
      let d0 := d1
      let d1 := -d2
      let d2 := 0
      { s with Snake_currentDirection := (d0, d1, d2) }
  | DirectionChange.RIGHT =>
    if d2 = 1 ∨ d2 = -1 then
      { s with Snake_currentDirection := (0, 1, 0) }
    else
      let d2 := d0
      let d0 := -d1
      let d1 := d2
      let d2 := 0
      { s with Snake_currentDirection := (d0, d1, d2) }
  | DirectionChange.UP =>
    if ¬ (d2 = -1) then
      { s with Snake_currentDirection := (0, 0, 1) }
    else s
  | DirectionChange.DOWN =>
    if ¬ (d2 = 1) then
      { s with Snake_currentDirection := (0, 0, -1) }
    else s
  | DirectionChange.CENTRE => s

/-- `Snake_Step`: the result is the returned `bool` and the state after the call.
`Snake_head->x` dereferences `Snake_head`, so an empty list gives `none`. -/
def Snake_Step (fuel : Nat) (rnd : Nat → Nat) (s : State) : Option (Bool × State) :=
  match s.Snake_body with
  | [] => none
  | head :: _ =>
    let newX := head.x + s.Snake_currentDirection.1
    let newY := head.y + s.Snake_currentDirection.2.1
    let newZ := head.z + s.Snake_currentDirection.2.2
    match Cube_GetCellStateAt newX newY newZ s with
    | CellState.WALL => some (false, s)
    | CellState.SNAKE => some (false, s)
    | CellState.APPLE =>
      (Snake_AppleStep fuel rnd newX newY newZ s).map (fun s1 => (true, s1))
    | CellState.EMPTY =>
      (Snake_NormalStep newX newY newZ s).map (fun s1 => (true, s1))

/-- `Snake_Free`: walk the list from `Snake_head` and free every segment; `Snake_head` is
`NULL` afterwards. -/
def Snake_Free (s : State) : State :=
  { s with Snake_body := [] }

/-! ## Controller, hardware and game functions -/

/-- `NUM_LEDS`. -/
def NUM_LEDS : Int := 512

/-- `WIN_LENGTH`. -/
def WIN_LENGTH : Int := 100

/-- `Controller_GetDirection`, as a function of the two samples that
`Hardware_ReadChannel(1)` and `Hardware_ReadChannel(2)` return. -/
def Controller_GetDirection (channel1 channel2 : Int) : DirectionChange :=
  if channel2 > 2500 then DirectionChange.LEFT
  else if channel2 < 1500 then DirectionChange.RIGHT
  else if channel1 > 2500 then DirectionChange.UP
  else if channel1 < 1500 then DirectionChange.DOWN
  else DirectionChange.CENTRE

/-- `Hardware_RenderCube`: the values passed to `usart_send_blocking`, the marker `0xF2`
followed by `Cube_map[0]` to `Cube_map[63]`. -/
def Hardware_RenderCube (s : State) : List Nat :=
  0xF2 :: (List.range 64).map (fun i => s.Cube_map.getD i 0)

/-- `Game_Over`. -/
def Game_Over (s : State) : State :=
  Snake_Free s

/-- How an iteration of the loop of `Game_Start` ends: the loop goes on, or it is left
because the step was refused, or because the win condition was met. -/
inductive Game_Status where
  | Running
  | Blocked
  | Won
deriving DecidableEq, Repr

/-- One iteration of the loop of `Game_Start` for the samples `(channel1, channel2)` read
by `Controller_GetDirection`: how it ends, the globals afterwards, and the values sent to
the cube.  The busy wait at the end of the iteration changes nothing. -/
def Game_Iteration (fuel : Nat) (rnd : Nat → Nat) (channels : Int × Int) (s : State) :
    Option (Game_Status × State × List Nat) :=
  let s1 := Snake_Turn (Controller_GetDirection channels.1 channels.2) s
  match Snake_Step fuel rnd s1 with
  | none => none
  | some (false, s2) => some (Game_Status.Blocked, s2, [])
  | some (true, s2) =>
    let sent := Hardware_RenderCube s2
    if s2.Snake_size == WIN_LENGTH then
      let s3 := Cube_SetAll s2
      some (Game_Status.Won, s3, sent ++ Hardware_RenderCube s3)
    else
      some (Game_Status.Running, s2, sent)

/-- The loop of `Game_Start` from iteration `iteration` on; `adc iteration` is the pair
of samples read in that iteration.  One unit of `loopFuel` is one iteration; `fuel` is
the fuel of each apple generation.  The result is how the loop was left, the globals
then, and everything sent to the cube. -/
def Game_Loop (loopFuel fuel : Nat) (rnd : Nat → Nat) (adc : Nat → Int × Int)
    (iteration : Nat) (s : State) : Option (Game_Status × State × List Nat) :=
  match loopFuel with
  | 0 => none
  | n + 1 =>
    match Game_Iteration fuel rnd (adc iteration) s with
    | none => none
    | some (Game_Status.Running, s1, sent) =>
      (Game_Loop n fuel rnd adc (iteration + 1) s1).map
        (fun result => (result.1, result.2.1, sent ++ result.2.2))
    | some (status, s1, sent) => some (status, s1, sent)

/-- `Game_Start`: `Snake_Init(0, 5, 5)`, the loop, then `Game_Over`. -/
def Game_Start (loopFuel fuel : Nat) (rnd : Nat → Nat) (adc : Nat → Int × Int)
    (s : State) : Option (Game_Status × State × List Nat) := do
  let s0 ← Snake_Init fuel rnd 0 5 5 s
  let result ← Game_Loop loopFuel fuel rnd adc 0 s0
  some (result.1, Game_Over result.2.1, result.2.2)

/-! ## Specification vocabulary -/

/-- All three axes lie in `[0, 8)`. -/
def InBounds (x y z : Int) : Prop :=
  (0 ≤ x ∧ x < 8) ∧ (0 ≤ y ∧ y < 8) ∧ (0 ≤ z ∧ z < 8)

instance (x y z : Int) : Decidable (InBounds x y z) := by
  unfold InBounds
  infer_instance

/-- The grid bit of a coordinate as the data model describes it: bit `z` of byte
`8 * y + x` of the map. -/
def gridBit (x y z : Int) (s : State) : Bool :=
  (s.Cube_map.getD (8 * y + x).toNat 0).testBit z.toNat

/-- A heading is a unit axis-aligned vector: exactly one component is non-zero and
that component is `1` or `-1`. -/
def IsUnitHeading (d : Int × Int × Int) : Prop :=
  ((d.1 = 1 ∨ d.1 = -1) ∧ d.2.1 = 0 ∧ d.2.2 = 0) ∨
  (d.1 = 0 ∧ (d.2.1 = 1 ∨ d.2.1 = -1) ∧ d.2.2 = 0) ∨
  (d.1 = 0 ∧ d.2.1 = 0 ∧ (d.2.2 = 1 ∨ d.2.2 = -1))

instance (d : Int × Int × Int) : Decidable (IsUnitHeading d) := by
  unfold IsUnitHeading
  infer_instance

/-- The heading after a sequence of turns, applied first to last. -/
def turnAll (intents : List DirectionChange) (s : State) : State :=
  intents.foldl (fun acc directionChange => Snake_Turn directionChange acc) s

/-- Grid bit number `k` of the 512 bits of the map: bit `k % 8` of byte `k / 8`. -/
def bitAt (k : Nat) (s : State) : Bool :=
  (s.Cube_map.getD (k / 8) 0).testBit (k % 8)

/-- The number of set bits among the 512 grid bits. -/
def countSetBits (s : State) : Nat :=
  (List.range 512).countP (fun k => bitAt k s)

/-- The position sampled by iteration `k` (counted from `0`) of the loop of
`Cube_GenerateApple` when the loop is entered in state `s`. -/
def sampleAt (rnd : Nat → Nat) (s : State) (k : Nat) : Int × Int × Int :=
  (((rnd (s.rand_calls + 3 * k) % 8 : Nat) : Int),
   ((rnd (s.rand_calls + 3 * k + 1) % 8 : Nat) : Int),
   ((rnd (s.rand_calls + 3 * k + 2) % 8 : Nat) : Int))

/-- Iteration `k` of the loop of `Cube_GenerateApple` entered in state `s` samples a
position whose bit is clear in `s`. -/
def SamplesClear (rnd : Nat → Nat) (s : State) (k : Nat) : Prop :=
  Cube_IsBitOnAt (sampleAt rnd s k).1 (sampleAt rnd s k).2.1 (sampleAt rnd s k).2.2 s = false

instance (rnd : Nat → Nat) (s : State) (k : Nat) : Decidable (SamplesClear rnd s k) := by
  unfold SamplesClear
  infer_instance

/-- The globals when `Game_Start` is entered: the initialisers of the source, a
zero-initialised map and an empty list. -/
def Game_initial : State :=
  { Snake_size := 0
    Snake_body := []
    Snake_currentDirection := (1, 0, 0)
    Cube_map := List.replicate 64 0
    rand_calls := 0 }

/-- States of a game run for the oracle `rnd`: the state after `Snake_Init(0, 5, 5)` on
the initial globals, and every state reached from there by calls of `Snake_Turn` with
any intent and calls of `Snake_Step` that return. -/
inductive Reachable (rnd : Nat → Nat) : State → Prop where
  | init (fuel : Nat) (s : State) :
      Snake_Init fuel rnd 0 5 5 Game_initial = some s → Reachable rnd s
  | turn (directionChange : DirectionChange) (s : State) :
      Reachable rnd s → Reachable rnd (Snake_Turn directionChange s)
  | step (fuel : Nat) (moved : Bool) (s s1 : State) :
      Reachable rnd s → Snake_Step fuel rnd s = some (moved, s1) → Reachable rnd s1

/-- The invariant of the body: the map has its 64 bytes, and the segments are at least
one, pairwise distinct, in bounds, and have their bits set. -/
structure BodyInvariant (s : State) : Prop where
  map_length : s.Cube_map.length = 64
  body_ne_nil : s.Snake_body ≠ []
  body_nodup : s.Snake_body.Nodup
  body_inBounds : ∀ seg ∈ s.Snake_body, InBounds seg.x seg.y seg.z
  body_bits : ∀ seg ∈ s.Snake_body, gridBit seg.x seg.y seg.z s = true

/-- The data invariant of a running game: the invariant of the body, `Snake_size` is the
number of segments, and the set bits are those of the segments and of one apple. -/
structure GameInvariant (s : State) : Prop where
  body : BodyInvariant s
  size_eq : s.Snake_size = (s.Snake_body.length : Int)
  count_eq : countSetBits s = s.Snake_body.length + 1

/-! ## Game runs, and the calls made in them -/

/-- States at the start of an iteration of the loop of `Game_Start`, for the oracles
`rnd` of `rand()` and `adc` of the joystick: `Game_Running rnd adc i s` says that `s` are
the globals when iteration `i` starts.  Iteration `0` starts after `Snake_Init(0, 5, 5)`
on the initial globals; iteration `i + 1` starts when iteration `i` has gone through
without leaving the loop. -/
inductive Game_Running (rnd : Nat → Nat) (adc : Nat → Int × Int) : Nat → State → Prop where
  | start (fuel : Nat) (s : State) :
      Snake_Init fuel rnd 0 5 5 Game_initial = some s → Game_Running rnd adc 0 s
  | next (fuel iteration : Nat) (s s1 : State) (sent : List Nat) :
      Game_Running rnd adc iteration s →
      Game_Iteration fuel rnd (adc iteration) s = some (Game_Status.Running, s1, sent) →
      Game_Running rnd adc (iteration + 1) s1

/-- The globals at the call of `Cube_GenerateApple` in `Snake_AppleStep`: the new head is
inserted and `Snake_size` is incremented. -/
def Snake_AppleStep_generateCall (x y z : Int) (s : State) : Option State := do
  let s1 ← Snake_AddHead x y z s
  some { s1 with Snake_size := s1.Snake_size + 1 }

/-- The globals at the call of `Cube_GenerateApple` made by `Snake_Init`. -/
def Snake_Init_generateCall (x y z : Int) (s : State) : Option State :=
  let s1 := { s with Snake_body := [⟨x, y, z⟩] }
  let s2 := Cube_SetBitAt x y z s1
  let s3 := { s2 with Snake_size := 1 }
  Snake_AppleStep_generateCall (x + s3.Snake_currentDirection.1)
    (y + s3.Snake_currentDirection.2.1) (z + s3.Snake_currentDirection.2.2) s3

/-- The globals at the call of `Cube_GenerateApple` made by `Snake_Step`, if it makes one:
it does in the case `APPLE` only. -/
def Snake_Step_generateCall (s : State) : Option State :=
  match s.Snake_body with
  | [] => none
  | head :: _ =>
    let newX := head.x + s.Snake_currentDirection.1
    let newY := head.y + s.Snake_currentDirection.2.1
    let newZ := head.z + s.Snake_currentDirection.2.2
    match Cube_GetCellStateAt newX newY newZ s with
    | CellState.APPLE => Snake_AppleStep_generateCall newX newY newZ s
    | _ => none

/-- The globals at the call of `Cube_GenerateApple` made in one iteration of the loop of
`Game_Start`, if it makes one. -/
def Game_Iteration_generateCall (channels : Int × Int) (s : State) : Option State :=
  Snake_Step_generateCall (Snake_Turn (Controller_GetDirection channels.1 channels.2) s)

/-- The coordinates passed to `Cube_IsBitOnAt` and `Cube_SetBitAt` by
`Cube_GenerateApple`, in the order of the calls: each sample is tested, the last one is
set. -/
def Cube_GenerateApple_calls (fuel : Nat) (rnd : Nat → Nat) (s : State) :
    List (Int × Int × Int) :=
  match fuel with
  | 0 => []
  | n + 1 =>
    let x : Int := ((rnd s.rand_calls % 8 : Nat) : Int)
    let y : Int := ((rnd (s.rand_calls + 1) % 8 : Nat) : Int)
    let z : Int := ((rnd (s.rand_calls + 2) % 8 : Nat) : Int)
    let s1 := { s with rand_calls := s.rand_calls + 3 }
    (x, y, z) ::
      (if Cube_IsBitOnAt x y z s1 != false then Cube_GenerateApple_calls n rnd s1
       else [(x, y, z)])

/-- The coordinates passed to `Cube_IsBitOnAt` by `Cube_GetCellStateAt`: the call is made
only when the bounds test has let the coordinate through. -/
def Cube_GetCellStateAt_calls (x y z : Int) : List (Int × Int × Int) :=
  if Cube_DimensionOutOfBounds x || Cube_DimensionOutOfBounds y
      || Cube_DimensionOutOfBounds z then []
  else [(x, y, z)]

/-- The coordinates passed to `Cube_ClearBitAt` by `Snake_PopTail`. -/
def Snake_PopTail_calls (s : State) : List (Int × Int × Int) :=
  match s.Snake_body.getLast? with
  | none => []
  | some tail => [(tail.x, tail.y, tail.z)]

/-- The coordinates passed to the bit functions by `Snake_NormalStep`: `Snake_AddHead`
sets the new head, `Snake_PopTail` clears the tail. -/
def Snake_NormalStep_calls (x y z : Int) (s : State) : List (Int × Int × Int) :=
  (x, y, z) ::
    (match Snake_AddHead x y z s with
     | none => []
     | some s1 => Snake_PopTail_calls s1)

/-- The coordinates passed to the bit functions by `Snake_AppleStep`: `Snake_AddHead`
sets the new head, then `Cube_GenerateApple` runs. -/
def Snake_AppleStep_calls (fuel : Nat) (rnd : Nat → Nat) (x y z : Int) (s : State) :
    List (Int × Int × Int) :=
  (x, y, z) ::
    (match Snake_AppleStep_generateCall x y z s with
     | none => []
     | some s2 => Cube_GenerateApple_calls fuel rnd s2)

/-- The coordinates passed to the bit functions by `Snake_Init`. -/
def Snake_Init_calls (fuel : Nat) (rnd : Nat → Nat) (x y z : Int) (s : State) :
    List (Int × Int × Int) :=
  let s1 := { s with Snake_body := [⟨x, y, z⟩] }
  let s2 := Cube_SetBitAt x y z s1
  let s3 := { s2 with Snake_size := 1 }
  (x, y, z) ::
    Snake_AppleStep_calls fuel rnd (x + s3.Snake_currentDirection.1)
      (y + s3.Snake_currentDirection.2.1) (z + s3.Snake_currentDirection.2.2) s3

/-- The coordinates passed to the bit functions by `Snake_Step`. -/
def Snake_Step_calls (fuel : Nat) (rnd : Nat → Nat) (s : State) : List (Int × Int × Int) :=
  match s.Snake_body with
  | [] => []
  | head :: _ =>
    let newX := head.x + s.Snake_currentDirection.1
    let newY := head.y + s.Snake_currentDirection.2.1
    let newZ := head.z + s.Snake_currentDirection.2.2
    Cube_GetCellStateAt_calls newX newY newZ ++
      (match Cube_GetCellStateAt newX newY newZ s with
       | CellState.WALL => []
       | CellState.SNAKE => []
       | CellState.APPLE => Snake_AppleStep_calls fuel rnd newX newY newZ s
       | CellState.EMPTY => Snake_NormalStep_calls newX newY newZ s)

/-- The coordinates passed to the bit functions in one iteration of the loop of
`Game_Start`: those of `Snake_Step`, as neither `Snake_Turn`, `Hardware_RenderCube` nor
`Cube_SetAll` calls them. -/
def Game_Iteration_calls (fuel : Nat) (rnd : Nat → Nat) (channels : Int × Int) (s : State) :
    List (Int × Int × Int) :=
  Snake_Step_calls fuel rnd (Snake_Turn (Controller_GetDirection channels.1 channels.2) s)

/-- What holds at the start of every iteration of the game loop: the data invariant, a
snake of at least two and fewer than `WIN_LENGTH` segments, and a unit heading that is the
difference between the head and the segment behind it. -/
structure RunInvariant (s : State) : Prop where
  game : GameInvariant s
  size_lt : s.Snake_size < WIN_LENGTH
  heading_unit : IsUnitHeading s.Snake_currentDirection
  neck : ∃ head neck rest, s.Snake_body = head :: neck :: rest ∧
    s.Snake_currentDirection = (head.x - neck.x, head.y - neck.y, head.z - neck.z)

/-! ## Example states -/

/-- A snake on `(1,5,5)`, `(0,5,5)` heading `(1,0,0)`, with exactly the bits of its two
segments set. -/
def twoSegmentState : State :=
  { Snake_size := 2
    Snake_body := [⟨1, 5, 5⟩, ⟨0, 5, 5⟩]
    Snake_currentDirection := (1, 0, 0)
    Cube_map := ((List.replicate 64 0).set 40 32).set 41 32
    rand_calls := 0 }

/-- The state `twoSegmentState` with an apple on `(2,5,5)`, the cell in front of the head. -/
def appleAheadState : State :=
  { twoSegmentState with Cube_map := twoSegmentState.Cube_map.set 42 32 }

/-- A snake on `(7,5,5)`, `(6,5,5)` heading `(1,0,0)`, facing the wall. -/
def facingWallState : State :=
  { Snake_size := 2
    Snake_body := [⟨7, 5, 5⟩, ⟨6, 5, 5⟩]
    Snake_currentDirection := (1, 0, 0)
    Cube_map := ((List.replicate 64 0).set 46 32).set 47 32
    rand_calls := 0 }

/-- The state after `Snake_Init(0, 5, 5)` on the initial globals when `rand()` returns
`0, 1, 2, …`: the apple is on `(0,1,2)`. -/
def afterInitState : State :=
  { Snake_size := 2
    Snake_body := [⟨1, 5, 5⟩, ⟨0, 5, 5⟩]
    Snake_currentDirection := (1, 0, 0)
    Cube_map := (((List.replicate 64 0).set 40 32).set 41 32).set 8 4
    rand_calls := 3 }

/-- The state after `Snake_Init(0, 5, 5)` on the initial globals when `rand()` returns
`2, 5, 5`: the first apple is on `(2,5,5)`, the cell in front of the head. -/
def appleAheadRunState : State :=
  { appleAheadState with rand_calls := 3 }

/-- A state whose body is `(1,5,5)`, `(2,5,5)` with heading `(1,0,0)` on an all-zero map:
the segments are distinct and in bounds, but their bits are not set, so the cell of the
tail, which is the cell in front of the head, is classified `EMPTY`. -/
def tailAheadState : State :=
  { Snake_size := 2
    Snake_body := [⟨1, 5, 5⟩, ⟨2, 5, 5⟩]
    Snake_currentDirection := (1, 0, 0)
    Cube_map := List.replicate 64 0
    rand_calls := 0 }

/-- The state `twoSegmentState` after one step forward: the snake is on `(2,5,5)`,
`(1,5,5)`. -/
def movedOnceState : State :=
  { Snake_size := 2
    Snake_body := [⟨2, 5, 5⟩, ⟨1, 5, 5⟩]
    Snake_currentDirection := (1, 0, 0)
    Cube_map := ((List.replicate 64 0).set 41 32).set 42 32
    rand_calls := 0 }

/-- Cell number `k` of a path through the cube that fills one row after the other and
one layer after the other, reversing the direction in every row and every layer, so that
consecutive cells are neighbours. -/
def serpentineCell (k : Nat) : Snake_Segment :=
  let layer := k / 64
  let row := k % 64 / 8
  let column := k % 8
  { x := if row % 2 = 0 then (column : Int) else 7 - (column : Int)
    y := if layer % 2 = 0 then (row : Int) else 7 - (row : Int)
    z := (layer : Int) }

/-- A snake of 99 segments on the cells `98, 97, …, 0` of the serpentine path, head first,
heading `(1,0,0)`, with an apple on cell `99`, the cell `(3,3,1)` in front of the head
`(2,3,1)`.  The set bits are those of the segments and of the apple. -/
def almostWonState : State :=
  let body := (List.range 99).map (fun k => serpentineCell (98 - k))
  { Snake_size := 99
    Snake_body := body
    Snake_currentDirection := (1, 0, 0)
    Cube_map := ((serpentineCell 99 :: body).foldl
      (fun acc cell => Cube_SetBitAt cell.x cell.y cell.z acc) Game_initial).Cube_map
    rand_calls := 0 }

/-! ## Bit-level lemmas -/

theorem land_two_pow_ne_zero (b n : Nat) : ((b &&& 2 ^ n) != 0) = b.testBit n := by
  cases hb : b.testBit n
  · have h0 : b &&& 2 ^ n = 0 := by
      apply Nat.eq_of_testBit_eq
      intro i
      rw [Nat.testBit_and, Nat.testBit_two_pow, Nat.zero_testBit]
      by_cases hi : n = i
      · subst hi; simp [hb]
      · simp [hi]
    simp [h0]
  · have h1 : (b &&& 2 ^ n).testBit n = true := by
      rw [Nat.testBit_and, Nat.testBit_two_pow, hb]; simp
    have hne : b &&& 2 ^ n ≠ 0 := by
      intro h0
      rw [h0, Nat.zero_testBit] at h1
      exact Bool.noConfusion h1
    simpa using hne

theorem getD_set_zero (l : List Nat) (i j v : Nat) :
    (l.set i v).getD j 0 = if i = j ∧ i < l.length then v else l.getD j 0 := by
  simp only [List.getD_eq_getElem?_getD, List.getElem?_set]
  by_cases hij : i = j
  · subst hij
    by_cases hlt : i < l.length
    · simp [hlt]
    · simp [hlt, List.getElem?_eq_none (Nat.le_of_not_lt hlt)]
  · simp [hij]

theorem testBit_setByte (b z z' : Nat) (hz' : z' < 8) :
    ((b ||| (1 <<< z)) % 256).testBit z' = (b.testBit z' || decide (z = z')) := by
  have h256 : (256 : Nat) = 2 ^ 8 := by norm_num
  rw [h256, Nat.testBit_mod_two_pow, Nat.testBit_or, Nat.one_shiftLeft, Nat.testBit_two_pow]
  simp [hz']

theorem testBit_clearByte (b z z' : Nat) (hz : z < 8) (hz' : z' < 8) :
    ((b &&& (4294967295 - (1 <<< z))) % 256).testBit z' = (b.testBit z' && !decide (z = z')) := by
  have h256 : (256 : Nat) = 2 ^ 8 := by norm_num
  have hlt : 2 ^ z < 2 ^ 32 := Nat.pow_lt_pow_right (by norm_num) (by omega)
  have hsub : 4294967295 - 2 ^ z = 2 ^ 32 - (2 ^ z + 1) := by
    have : (2 : Nat) ^ 32 = 4294967296 := by norm_num
    omega
  rw [h256, Nat.testBit_mod_two_pow, Nat.testBit_and, Nat.one_shiftLeft, hsub,
    Nat.testBit_two_pow_sub_succ hlt, Nat.testBit_two_pow]
  have h32 : z' < 32 := by omega
  simp [hz', h32]


theorem gridBit_Cube_SetBitAt (s : State) (x y z x' y' z' : Int)
    (hlen : s.Cube_map.length = 64) (hc : InBounds x y z) (hc' : InBounds x' y' z') :
    gridBit x' y' z' (Cube_SetBitAt x y z s) =
      (gridBit x' y' z' s || decide (x' = x ∧ y' = y ∧ z' = z)) := by
  obtain ⟨hx, hy, hz⟩ := hc
  obtain ⟨hx', hy', hz'⟩ := hc'
  unfold gridBit Cube_SetBitAt
  simp only
  rw [getD_set_zero]
  by_cases hi : (8 * y + x).toNat = (8 * y' + x').toNat
  · have hxy : x' = x ∧ y' = y := by omega
    have hlt : (8 * y + x).toNat < s.Cube_map.length := by omega
    rw [if_pos ⟨hi, hlt⟩, testBit_setByte _ _ _ (by omega), hi]
    by_cases hzz : z.toNat = z'.toNat
    · have : z' = z := by omega
      simp [hxy, this]
    · have : ¬ z' = z := by omega
      simp [hzz, this]
  · have hxy : ¬ (x' = x ∧ y' = y) := by omega
    have : ¬ (x' = x ∧ y' = y ∧ z' = z) := fun h => hxy ⟨h.1, h.2.1⟩
    rw [if_neg (fun h => hi h.1)]
    simp [this]

theorem gridBit_Cube_ClearBitAt (s : State) (x y z x' y' z' : Int)
    (hc : InBounds x y z) (hc' : InBounds x' y' z') :
    gridBit x' y' z' (Cube_ClearBitAt x y z s) =
      (gridBit x' y' z' s && !decide (x' = x ∧ y' = y ∧ z' = z)) := by
  obtain ⟨hx, hy, hz⟩ := hc
  obtain ⟨hx', hy', hz'⟩ := hc'
  unfold gridBit Cube_ClearBitAt
  simp only
  rw [getD_set_zero]
  by_cases hi : (8 * y + x).toNat = (8 * y' + x').toNat
  · have hxy : x' = x ∧ y' = y := by omega
    by_cases hlt : (8 * y + x).toNat < s.Cube_map.length
    · rw [if_pos ⟨hi, hlt⟩, testBit_clearByte _ _ _ (by omega) (by omega), hi]
      by_cases hzz : z.toNat = z'.toNat
      · have : z' = z := by omega
        simp [hxy, this]
      · have : ¬ z' = z := by omega
        simp [hzz, this]
    · rw [if_neg (fun h => hlt h.2)]
      have h0 : s.Cube_map.getD (8 * y' + x').toNat 0 = 0 := by
        rw [← hi]
        simp [List.getElem?_eq_none (Nat.le_of_not_lt hlt)]
      rw [h0]
      simp
  · have hxy : ¬ (x' = x ∧ y' = y) := by omega
    have : ¬ (x' = x ∧ y' = y ∧ z' = z) := fun h => hxy ⟨h.1, h.2.1⟩
    rw [if_neg (fun h => hi h.1)]
    simp [this]

theorem Cube_IsBitOnAt_eq_gridBit (x y z : Int) (s : State) :
    Cube_IsBitOnAt x y z s = gridBit x y z s := by
  unfold Cube_IsBitOnAt gridBit
  simp only [Nat.one_shiftLeft]
  exact land_two_pow_ne_zero _ _

theorem Cube_DimensionOutOfBounds_eq_false {d : Int} (h : 0 ≤ d ∧ d < 8) :
    Cube_DimensionOutOfBounds d = false := by
  unfold Cube_DimensionOutOfBounds
  have : ¬ (d < 0 ∨ d ≥ 8) := by omega
  simp [this]

theorem Cube_DimensionOutOfBounds_eq_true {d : Int} (h : d < 0 ∨ d ≥ 8) :
    Cube_DimensionOutOfBounds d = true := by
  unfold Cube_DimensionOutOfBounds
  simp [h]

theorem Cube_IsSnakeSegment_iff (x y z : Int) (s : State) :
    Cube_IsSnakeSegment x y z s = true ↔ (⟨x, y, z⟩ : Snake_Segment) ∈ s.Snake_body := by
  unfold Cube_IsSnakeSegment
  rw [List.any_eq_true]
  constructor
  · rintro ⟨c, hc, h⟩
    simp only [Bool.and_eq_true, beq_iff_eq] at h
    obtain ⟨⟨h1, h2⟩, h3⟩ := h
    cases c
    simp only at h1 h2 h3
    subst h1 h2 h3
    exact hc
  · intro h
    exact ⟨_, h, by simp⟩

/-- The classification of an in-bounds coordinate, by cases on its bit and on
membership in the body. -/
theorem Cube_GetCellStateAt_inBounds (x y z : Int) (s : State) (h : InBounds x y z) :
    Cube_GetCellStateAt x y z s =
      if gridBit x y z s then
        if (⟨x, y, z⟩ : Snake_Segment) ∈ s.Snake_body then CellState.SNAKE else CellState.APPLE
      else CellState.EMPTY := by
  obtain ⟨hx, hy, hz⟩ := h
  unfold Cube_GetCellStateAt
  rw [Cube_DimensionOutOfBounds_eq_false hx, Cube_DimensionOutOfBounds_eq_false hy,
    Cube_DimensionOutOfBounds_eq_false hz, Cube_IsBitOnAt_eq_gridBit]
  by_cases hm : (⟨x, y, z⟩ : Snake_Segment) ∈ s.Snake_body
  · simp [hm, (Cube_IsSnakeSegment_iff x y z s).2 hm]
  · have : Cube_IsSnakeSegment x y z s = false := by
      cases hs : Cube_IsSnakeSegment x y z s
      · rfl
      · exact absurd ((Cube_IsSnakeSegment_iff x y z s).1 hs) hm
    simp [hm, this]

theorem Cube_GetCellStateAt_ne_wall_inBounds (x y z : Int) (s : State)
    (h : Cube_GetCellStateAt x y z s ≠ CellState.WALL) : InBounds x y z := by
  unfold Cube_GetCellStateAt at h
  unfold InBounds
  by_contra hc
  have hoob : (Cube_DimensionOutOfBounds x || Cube_DimensionOutOfBounds y
      || Cube_DimensionOutOfBounds z) = true := by
    unfold Cube_DimensionOutOfBounds
    by_cases h1 : x < 0 ∨ x ≥ 8
    · simp [h1]
    · by_cases h2 : y < 0 ∨ y ≥ 8
      · simp [h2]
      · have h3 : z < 0 ∨ z ≥ 8 := by omega
        simp [h3]
  rw [if_pos hoob] at h
  exact h rfl

theorem Cube_GetCellStateAt_empty (x y z : Int) (s : State)
    (h : Cube_GetCellStateAt x y z s = CellState.EMPTY) :
    InBounds x y z ∧ gridBit x y z s = false := by
  have hin := Cube_GetCellStateAt_ne_wall_inBounds x y z s (by rw [h]; decide)
  refine ⟨hin, ?_⟩
  rw [Cube_GetCellStateAt_inBounds x y z s hin] at h
  cases hb : gridBit x y z s
  · rfl
  · rw [hb] at h
    simp only [if_true] at h
    split_ifs at h

theorem Cube_GetCellStateAt_apple (x y z : Int) (s : State)
    (h : Cube_GetCellStateAt x y z s = CellState.APPLE) :
    InBounds x y z ∧ gridBit x y z s = true ∧ (⟨x, y, z⟩ : Snake_Segment) ∉ s.Snake_body := by
  have hin := Cube_GetCellStateAt_ne_wall_inBounds x y z s (by rw [h]; decide)
  refine ⟨hin, ?_⟩
  rw [Cube_GetCellStateAt_inBounds x y z s hin] at h
  cases hb : gridBit x y z s
  · rw [hb] at h
    simp at h
  · rw [hb] at h
    simp only [if_true] at h
    refine ⟨rfl, fun hm => ?_⟩
    rw [if_pos hm] at h
    exact CellState.noConfusion h

/-! ## Frame lemmas for the cube functions -/

@[simp] theorem Cube_SetBitAt_body (x y z : Int) (s : State) :
    (Cube_SetBitAt x y z s).Snake_body = s.Snake_body := rfl

@[simp] theorem Cube_SetBitAt_size (x y z : Int) (s : State) :
    (Cube_SetBitAt x y z s).Snake_size = s.Snake_size := rfl

@[simp] theorem Cube_SetBitAt_direction (x y z : Int) (s : State) :
    (Cube_SetBitAt x y z s).Snake_currentDirection = s.Snake_currentDirection := rfl

@[simp] theorem Cube_SetBitAt_rand_calls (x y z : Int) (s : State) :
    (Cube_SetBitAt x y z s).rand_calls = s.rand_calls := rfl

@[simp] theorem Cube_SetBitAt_map_length (x y z : Int) (s : State) :
    (Cube_SetBitAt x y z s).Cube_map.length = s.Cube_map.length := by
  simp [Cube_SetBitAt]

@[simp] theorem Cube_ClearBitAt_body (x y z : Int) (s : State) :
    (Cube_ClearBitAt x y z s).Snake_body = s.Snake_body := rfl

@[simp] theorem Cube_ClearBitAt_size (x y z : Int) (s : State) :
    (Cube_ClearBitAt x y z s).Snake_size = s.Snake_size := rfl

@[simp] theorem Cube_ClearBitAt_direction (x y z : Int) (s : State) :
    (Cube_ClearBitAt x y z s).Snake_currentDirection = s.Snake_currentDirection := rfl

@[simp] theorem Cube_ClearBitAt_map_length (x y z : Int) (s : State) :
    (Cube_ClearBitAt x y z s).Cube_map.length = s.Cube_map.length := by
  simp [Cube_ClearBitAt]

theorem gridBit_of_map_eq (s s1 : State) (h : s1.Cube_map = s.Cube_map) (x y z : Int) :
    gridBit x y z s1 = gridBit x y z s := by
  unfold gridBit
  rw [h]

theorem bitAt_of_map_eq (s s1 : State) (h : s1.Cube_map = s.Cube_map) (k : Nat) :
    bitAt k s1 = bitAt k s := by
  unfold bitAt
  rw [h]

theorem countSetBits_of_map_eq (s s1 : State) (h : s1.Cube_map = s.Cube_map) :
    countSetBits s1 = countSetBits s := by
  unfold countSetBits
  simp only [bitAt_of_map_eq s s1 h]

/-! ## What the snake functions compute -/

theorem Snake_AddHead_eq (x y z : Int) (s : State) (h : s.Snake_body ≠ []) :
    Snake_AddHead x y z s =
      some { Cube_SetBitAt x y z s with Snake_body := ⟨x, y, z⟩ :: s.Snake_body } := by
  unfold Snake_AddHead
  simp only [Cube_SetBitAt_body]
  cases hb : s.Snake_body with
  | nil => exact absurd hb h
  | cons head rest => rfl

theorem Snake_PopTail_eq (s : State) (h : s.Snake_body ≠ []) (h2 : 2 ≤ s.Snake_body.length) :
    Snake_PopTail s =
      some { Cube_ClearBitAt (s.Snake_body.getLast h).x (s.Snake_body.getLast h).y
                (s.Snake_body.getLast h).z s with
             Snake_body := s.Snake_body.dropLast } := by
  unfold Snake_PopTail
  rw [List.getLast?_eq_getLast _ h]
  simp only [Cube_ClearBitAt_body]
  rw [if_neg (by omega)]

theorem Snake_NormalStep_eq (x y z : Int) (s : State) (h : s.Snake_body ≠ []) :
    Snake_NormalStep x y z s =
      some { Cube_ClearBitAt (s.Snake_body.getLast h).x (s.Snake_body.getLast h).y
                (s.Snake_body.getLast h).z (Cube_SetBitAt x y z s) with
             Snake_body := ⟨x, y, z⟩ :: s.Snake_body.dropLast } := by
  unfold Snake_NormalStep
  rw [Snake_AddHead_eq x y z s h]
  simp only [Option.bind_eq_bind, Option.some_bind]
  rw [Snake_PopTail_eq _ (by simp) (by
    simp only [List.length_cons]
    have := List.length_pos.2 h
    omega)]
  simp only [List.getLast_cons h, List.dropLast_cons_of_ne_nil h]
  rfl

theorem Cube_IsBitOnAt_rand_calls (x y z : Int) (s : State) (n : Nat) :
    Cube_IsBitOnAt x y z { s with rand_calls := n } = Cube_IsBitOnAt x y z s := rfl

theorem sampleAt_inBounds (rnd : Nat → Nat) (s : State) (k : Nat) :
    InBounds (sampleAt rnd s k).1 (sampleAt rnd s k).2.1 (sampleAt rnd s k).2.2 := by
  unfold InBounds sampleAt
  simp only
  omega

/-- The loop of `Cube_GenerateApple` returns as soon as the fuel covers an iteration that
samples a clear position; the result is the entry state with the bit of the first such
sample set and three calls of `rand()` counted for each iteration made. -/
theorem Cube_GenerateApple_eq (rnd : Nat → Nat) (fuel : Nat) (s : State) (k : Nat)
    (hk : k < fuel) (hclear : SamplesClear rnd s k) :
    ∃ j, j ≤ k ∧ SamplesClear rnd s j ∧ (∀ i, i < j → ¬ SamplesClear rnd s i) ∧
      Cube_GenerateApple fuel rnd s =
        some (Cube_SetBitAt (sampleAt rnd s j).1 (sampleAt rnd s j).2.1 (sampleAt rnd s j).2.2
          { s with rand_calls := s.rand_calls + 3 * (j + 1) }) := by
  induction fuel generalizing s k with
  | zero => omega
  | succ n ih =>
    unfold Cube_GenerateApple
    by_cases h0 : SamplesClear rnd s 0
    · refine ⟨0, Nat.zero_le _, h0, fun i hi => absurd hi (Nat.not_lt_zero i), ?_⟩
      have h0' := h0
      unfold SamplesClear sampleAt at h0'
      simp only [Nat.mul_zero, Nat.add_zero] at h0'
      simp only [sampleAt, Nat.mul_zero, Nat.add_zero, Nat.zero_add, Nat.mul_one]
      rw [Cube_IsBitOnAt_rand_calls, h0']
      simp
    · have hon : Cube_IsBitOnAt ((rnd s.rand_calls % 8 : Nat) : Int)
          ((rnd (s.rand_calls + 1) % 8 : Nat) : Int) ((rnd (s.rand_calls + 2) % 8 : Nat) : Int)
          { s with rand_calls := s.rand_calls + 3 } = true := by
        rw [Cube_IsBitOnAt_rand_calls]
        unfold SamplesClear sampleAt at h0
        simp only [Nat.mul_zero, Nat.add_zero] at h0
        simpa using h0
      have hshift : ∀ i, sampleAt rnd { s with rand_calls := s.rand_calls + 3 } i
          = sampleAt rnd s (i + 1) := by
        intro i
        unfold sampleAt
        simp only
        have e : s.rand_calls + 3 + 3 * i = s.rand_calls + 3 * (i + 1) := by omega
        rw [e]
      have hclearShift : ∀ i, SamplesClear rnd { s with rand_calls := s.rand_calls + 3 } i
          ↔ SamplesClear rnd s (i + 1) := by
        intro i
        unfold SamplesClear
        rw [hshift i, Cube_IsBitOnAt_rand_calls]
      obtain ⟨k1, rfl⟩ : ∃ k1, k = k1 + 1 := by
        cases k with
        | zero => exact absurd hclear h0
        | succ k1 => exact ⟨k1, rfl⟩
      obtain ⟨j, hj, hcj, hmin, heq⟩ :=
        ih { s with rand_calls := s.rand_calls + 3 } k1 (by omega) ((hclearShift k1).2 hclear)
      refine ⟨j + 1, by omega, (hclearShift j).1 hcj, ?_, ?_⟩
      · intro i hi
        cases i with
        | zero => exact h0
        | succ i1 => exact fun hc => hmin i1 (by omega) ((hclearShift i1).2 hc)
      · simp only [hon, bne_self_eq_false, Bool.true_bne, Bool.not_false, if_true]
        rw [heq, hshift j]
        have e : s.rand_calls + 3 + 3 * (j + 1) = s.rand_calls + 3 * (j + 1 + 1) := by omega
        simp only [e]

theorem Snake_AppleStep_eq (fuel : Nat) (rnd : Nat → Nat) (x y z : Int) (s : State)
    (h : s.Snake_body ≠ []) :
    Snake_AppleStep fuel rnd x y z s =
      Cube_GenerateApple fuel rnd
        { Cube_SetBitAt x y z s with
          Snake_body := ⟨x, y, z⟩ :: s.Snake_body
          Snake_size := s.Snake_size + 1 } := by
  unfold Snake_AppleStep
  rw [Snake_AddHead_eq x y z s h]
  rfl

theorem Snake_Step_eq (fuel : Nat) (rnd : Nat → Nat) (s : State) (head : Snake_Segment)
    (rest : List Snake_Segment) (hbody : s.Snake_body = head :: rest) :
    Snake_Step fuel rnd s =
      match Cube_GetCellStateAt (head.x + s.Snake_currentDirection.1)
          (head.y + s.Snake_currentDirection.2.1) (head.z + s.Snake_currentDirection.2.2) s with
      | CellState.WALL => some (false, s)
      | CellState.SNAKE => some (false, s)
      | CellState.APPLE =>
        (Snake_AppleStep fuel rnd (head.x + s.Snake_currentDirection.1)
          (head.y + s.Snake_currentDirection.2.1) (head.z + s.Snake_currentDirection.2.2) s).map
          (fun s1 => (true, s1))
      | CellState.EMPTY =>
        (Snake_NormalStep (head.x + s.Snake_currentDirection.1)
          (head.y + s.Snake_currentDirection.2.1) (head.z + s.Snake_currentDirection.2.2) s).map
          (fun s1 => (true, s1)) := by
  unfold Snake_Step
  rw [hbody]

/-- The state after an apple step at `(x, y, z)` whose apple lands on `(ax, ay, az)` after
`calls` calls of `rand()`. -/
theorem Snake_AppleStep_spec (fuel : Nat) (rnd : Nat → Nat) (x y z : Int) (s : State)
    (hlen : s.Cube_map.length = 64) (hne : s.Snake_body ≠ []) (hin : InBounds x y z)
    (k : Nat) (hk : k < fuel)
    (hclear : SamplesClear rnd s k)
    (hx : (sampleAt rnd s k) ≠ (x, y, z)) :
    ∃ s1 ax ay az, Snake_AppleStep fuel rnd x y z s = some s1 ∧
      InBounds ax ay az ∧ gridBit ax ay az s = false ∧ (ax, ay, az) ≠ (x, y, z) ∧
      s1.Snake_body = ⟨x, y, z⟩ :: s.Snake_body ∧
      s1.Snake_size = s.Snake_size + 1 ∧
      s1.Snake_currentDirection = s.Snake_currentDirection ∧
      s1.Cube_map.length = 64 ∧
      (∀ x1 y1 z1, InBounds x1 y1 z1 →
        gridBit x1 y1 z1 s1 =
          (gridBit x1 y1 z1 s || decide (x1 = x ∧ y1 = y ∧ z1 = z)
            || decide (x1 = ax ∧ y1 = ay ∧ z1 = az))) := by
  rw [Snake_AppleStep_eq fuel rnd x y z s hne]
  set s2 : State := { Cube_SetBitAt x y z s with
          Snake_body := ⟨x, y, z⟩ :: s.Snake_body
          Snake_size := s.Snake_size + 1 } with hs2
  have hmap2 : s2.Cube_map = (Cube_SetBitAt x y z s).Cube_map := rfl
  have hbit2 : ∀ x1 y1 z1, InBounds x1 y1 z1 →
      gridBit x1 y1 z1 s2 = (gridBit x1 y1 z1 s || decide (x1 = x ∧ y1 = y ∧ z1 = z)) := by
    intro x1 y1 z1 h1
    rw [gridBit_of_map_eq _ _ hmap2, gridBit_Cube_SetBitAt s x y z x1 y1 z1 hlen hin h1]
  have hsample : ∀ i, sampleAt rnd s2 i = sampleAt rnd s i := fun i => rfl
  have hclear2 : SamplesClear rnd s2 k := by
    unfold SamplesClear at hclear ⊢
    rw [hsample, Cube_IsBitOnAt_eq_gridBit, hbit2 _ _ _ (sampleAt_inBounds rnd s k)]
    rw [Cube_IsBitOnAt_eq_gridBit] at hclear
    rw [hclear]
    have : ¬ ((sampleAt rnd s k).1 = x ∧ (sampleAt rnd s k).2.1 = y ∧ (sampleAt rnd s k).2.2 = z) := by
      intro h
      apply hx
      rw [← h.1, ← h.2.1, ← h.2.2]
    simp [this]
  obtain ⟨j, -, hcj, -, heq⟩ := Cube_GenerateApple_eq rnd fuel s2 k hk hclear2
  have hjin := sampleAt_inBounds rnd s2 j
  unfold SamplesClear at hcj
  rw [Cube_IsBitOnAt_eq_gridBit, hbit2 _ _ _ hjin] at hcj
  simp only [Bool.or_eq_false_iff, decide_eq_false_iff_not] at hcj
  refine ⟨_, (sampleAt rnd s2 j).1, (sampleAt rnd s2 j).2.1, (sampleAt rnd s2 j).2.2, heq, hjin,
    hcj.1, ?_, rfl, rfl, rfl, ?_, ?_⟩
  · intro h
    simp only [Prod.mk.injEq] at h
    exact hcj.2 h
  · simp [hs2, hlen]
  · intro x1 y1 z1 h1
    rw [gridBit_Cube_SetBitAt _ _ _ _ x1 y1 z1 (by simp [hs2, hlen]) hjin h1,
      gridBit_of_map_eq s2 { s2 with rand_calls := s2.rand_calls + 3 * (j + 1) } rfl,
      hbit2 x1 y1 z1 h1]

/-! ## Counting set bits -/

theorem countP_succ_of_flip (l : List Nat) (hl : l.Nodup) (p q : Nat → Bool) (a : Nat)
    (ha : a ∈ l) (hp : p a = false) (hq : q a = true)
    (hrest : ∀ k ∈ l, k ≠ a → q k = p k) : l.countP q = l.countP p + 1 := by
  induction l with
  | nil => exact absurd ha (List.not_mem_nil a)
  | cons b t ih =>
    rw [List.nodup_cons] at hl
    obtain ⟨hbt, ht⟩ := hl
    by_cases hab : b = a
    · subst hab
      have hsame : t.countP q = t.countP p := by
        apply List.countP_congr
        intro k hk
        have hkb : k ≠ b := fun h => hbt (h ▸ hk)
        rw [hrest k (List.mem_cons_of_mem _ hk) hkb]
      rw [List.countP_cons_of_pos _ _ hq, List.countP_cons_of_neg _ _ (by simp [hp]), hsame]
    · have hat : a ∈ t := by
        rcases List.mem_cons.1 ha with h | h
        · exact absurd h.symm hab
        · exact h
      have hb : q b = p b := hrest b (List.mem_cons_self _ _) hab
      have ih1 := ih ht hat (fun k hk hka => hrest k (List.mem_cons_of_mem _ hk) hka)
      simp only [List.countP_cons, ih1, hb]
      omega

theorem bitAt_eq_gridBit (k : Nat) (s : State) :
    bitAt k s = gridBit (((k / 8 % 8 : Nat) : Int)) ((k / 64 : Nat) : Int) ((k % 8 : Nat) : Int) s := by
  unfold bitAt gridBit
  have h1 : (8 * ((k / 64 : Nat) : Int) + ((k / 8 % 8 : Nat) : Int)).toNat = k / 8 := by omega
  have h2 : (((k % 8 : Nat) : Int)).toNat = k % 8 := by omega
  rw [h1, h2]

theorem inBounds_of_index (k : Nat) (hk : k < 512) :
    InBounds (((k / 8 % 8 : Nat) : Int)) ((k / 64 : Nat) : Int) ((k % 8 : Nat) : Int) := by
  unfold InBounds
  omega

theorem gridBit_eq_bitAt (x y z : Int) (s : State) (h : InBounds x y z) :
    gridBit x y z s = bitAt (8 * (8 * y + x) + z).toNat s := by
  unfold bitAt gridBit InBounds at *
  have h1 : (8 * (8 * y + x) + z).toNat / 8 = (8 * y + x).toNat := by omega
  have h2 : (8 * (8 * y + x) + z).toNat % 8 = z.toNat := by omega
  rw [h1, h2]

/-- Setting one clear grid bit raises the number of set bits by one. -/
theorem countSetBits_succ (s s1 : State) (x y z : Int) (hin : InBounds x y z)
    (hoff : gridBit x y z s = false)
    (hupd : ∀ x1 y1 z1, InBounds x1 y1 z1 →
      gridBit x1 y1 z1 s1 = (gridBit x1 y1 z1 s || decide (x1 = x ∧ y1 = y ∧ z1 = z))) :
    countSetBits s1 = countSetBits s + 1 := by
  unfold countSetBits
  have hlt : (8 * (8 * y + x) + z).toNat < 512 := by
    unfold InBounds at hin
    omega
  apply countP_succ_of_flip _ (List.nodup_range 512) _ _ (8 * (8 * y + x) + z).toNat
    (List.mem_range.2 hlt)
  · rw [← gridBit_eq_bitAt x y z s hin, hoff]
  · rw [← gridBit_eq_bitAt x y z s1 hin, hupd x y z hin]
    simp
  · intro k hk hne
    have hk512 := List.mem_range.1 hk
    rw [bitAt_eq_gridBit k s1, bitAt_eq_gridBit k s, hupd _ _ _ (inBounds_of_index k hk512)]
    have : ¬ (((k / 8 % 8 : Nat) : Int) = x ∧ ((k / 64 : Nat) : Int) = y ∧
        ((k % 8 : Nat) : Int) = z) := by
      rintro ⟨h1, h2, h3⟩
      apply hne
      omega
    rw [decide_eq_false this, Bool.or_false]

/-- Grids that agree on every in-bounds cell have the same number of set bits. -/
theorem countSetBits_congr (s s1 : State)
    (hupd : ∀ x1 y1 z1, InBounds x1 y1 z1 → gridBit x1 y1 z1 s1 = gridBit x1 y1 z1 s) :
    countSetBits s1 = countSetBits s := by
  unfold countSetBits
  apply List.countP_congr
  intro k hk
  have hk512 := List.mem_range.1 hk
  rw [bitAt_eq_gridBit k s1, bitAt_eq_gridBit k s, hupd _ _ _ (inBounds_of_index k hk512)]

/-- Clearing one set grid bit lowers the number of set bits by one. -/
theorem countSetBits_pred (s s1 : State) (x y z : Int) (hin : InBounds x y z)
    (hon : gridBit x y z s = true)
    (hupd : ∀ x1 y1 z1, InBounds x1 y1 z1 →
      gridBit x1 y1 z1 s1 = (gridBit x1 y1 z1 s && !decide (x1 = x ∧ y1 = y ∧ z1 = z))) :
    countSetBits s1 + 1 = countSetBits s := by
  symm
  apply countSetBits_succ s1 s x y z hin
  · rw [hupd x y z hin]
    simp
  · intro x1 y1 z1 h1
    rw [hupd x1 y1 z1 h1]
    by_cases hc : x1 = x ∧ y1 = y ∧ z1 = z
    · obtain ⟨rfl, rfl, rfl⟩ := hc
      simp [hon]
    · simp [hc]

theorem countSetBits_zero (s : State) (h : s.Cube_map = List.replicate 64 0) :
    countSetBits s = 0 := by
  unfold countSetBits
  rw [List.countP_eq_zero]
  intro k _
  unfold bitAt
  rw [h]
  have : (List.replicate 64 0).getD (k / 8) 0 = 0 := by
    simp only [List.getD_eq_getElem?_getD, List.getElem?_replicate]
    split_ifs <;> rfl
  rw [this, Nat.zero_testBit]
  exact Bool.false_ne_true

theorem gridBit_zero (x y z : Int) (s : State) (h : s.Cube_map = List.replicate 64 0) :
    gridBit x y z s = false := by
  unfold gridBit
  rw [h]
  have : (List.replicate 64 0).getD (8 * y + x).toNat 0 = 0 := by
    simp only [List.getD_eq_getElem?_getD, List.getElem?_replicate]
    split_ifs <;> rfl
  rw [this, Nat.zero_testBit]

/-! ## Turning, stepping and the invariant of a game run -/

theorem Snake_Turn_isUnitHeading (directionChange : DirectionChange) (s : State)
    (h : IsUnitHeading s.Snake_currentDirection) :
    IsUnitHeading (Snake_Turn directionChange s).Snake_currentDirection := by
  obtain ⟨size, body, ⟨a, b, c⟩, map, calls⟩ := s
  unfold IsUnitHeading at h
  simp only at h
  cases directionChange
  case CENTRE => exact h
  all_goals
    simp only [Snake_Turn]
    split_ifs <;> first
      | exact h
      | (simp only [IsUnitHeading, Prod.fst, Prod.snd, and_true, true_and, or_true, true_or]
         done)
      | (simp only [IsUnitHeading, Prod.fst, Prod.snd, and_true, true_and, or_true, true_or]
         omega)

theorem turnAll_isUnitHeading (intents : List DirectionChange) (s : State)
    (h : IsUnitHeading s.Snake_currentDirection) :
    IsUnitHeading (turnAll intents s).Snake_currentDirection := by
  induction intents generalizing s with
  | nil => exact h
  | cons directionChange rest ih =>
    exact ih (Snake_Turn directionChange s) (Snake_Turn_isUnitHeading directionChange s h)

theorem isUnitHeading_ne_zero (d : Int × Int × Int) (h : IsUnitHeading d) : d ≠ (0, 0, 0) := by
  obtain ⟨a, b, c⟩ := d
  unfold IsUnitHeading at h
  simp only at h
  intro hz
  simp only [Prod.mk.injEq] at hz
  omega

/-- A step into an apple returns `true` as soon as the fuel covers an iteration of apple
generation that samples a clear cell, and the state afterwards is the grown snake. -/
theorem Snake_Step_apple_returns (fuel : Nat) (rnd : Nat → Nat) (s : State)
    (head : Snake_Segment) (rest : List Snake_Segment)
    (hlen : s.Cube_map.length = 64) (hbody : s.Snake_body = head :: rest)
    (happle : Cube_GetCellStateAt (head.x + s.Snake_currentDirection.1)
        (head.y + s.Snake_currentDirection.2.1) (head.z + s.Snake_currentDirection.2.2) s
        = CellState.APPLE)
    (k : Nat) (hk : k < fuel) (hclear : SamplesClear rnd s k) :
    ∃ s1, Snake_Step fuel rnd s = some (true, s1) ∧
      s1.Snake_body = ⟨head.x + s.Snake_currentDirection.1,
        head.y + s.Snake_currentDirection.2.1, head.z + s.Snake_currentDirection.2.2⟩
          :: head :: rest ∧
      s1.Snake_size = s.Snake_size + 1 ∧
      s1.Snake_body.length = s.Snake_body.length + 1 ∧
      gridBit (head.x + s.Snake_currentDirection.1) (head.y + s.Snake_currentDirection.2.1)
        (head.z + s.Snake_currentDirection.2.2) s1 = true ∧
      (∀ x y z, InBounds x y z → gridBit x y z s = true → gridBit x y z s1 = true) := by
  have hne : s.Snake_body ≠ [] := by rw [hbody]; exact List.cons_ne_nil _ _
  obtain ⟨hin, hset, -⟩ := Cube_GetCellStateAt_apple _ _ _ s happle
  have hx : sampleAt rnd s k ≠ (head.x + s.Snake_currentDirection.1,
      head.y + s.Snake_currentDirection.2.1, head.z + s.Snake_currentDirection.2.2) := by
    intro h
    unfold SamplesClear at hclear
    rw [h, Cube_IsBitOnAt_eq_gridBit, hset] at hclear
    exact Bool.noConfusion hclear
  obtain ⟨s1, ax, ay, az, hstep, -, -, -, hb, hsz, -, -, hbits⟩ :=
    Snake_AppleStep_spec fuel rnd _ _ _ s hlen hne hin k hk hclear hx
  refine ⟨s1, ?_, ?_, hsz, ?_, ?_, ?_⟩
  · rw [Snake_Step_eq fuel rnd s head rest hbody, happle]
    simp only [hstep, Option.map_some']
  · rw [hb, hbody]
  · rw [hb, List.length_cons]
  · rw [hbits _ _ _ hin, hset]
    rfl
  · intro x y z hxyz hon
    rw [hbits _ _ _ hxyz, hon]
    rfl

/-- The state after a normal step at an in-bounds position `(x, y, z)` when the tail is
in bounds. -/
theorem Snake_NormalStep_spec (x y z : Int) (s : State)
    (hlen : s.Cube_map.length = 64) (hne : s.Snake_body ≠ []) (hin : InBounds x y z)
    (htin : InBounds (s.Snake_body.getLast hne).x (s.Snake_body.getLast hne).y
      (s.Snake_body.getLast hne).z) :
    ∃ s1, Snake_NormalStep x y z s = some s1 ∧
      s1.Snake_body = ⟨x, y, z⟩ :: s.Snake_body.dropLast ∧
      s1.Snake_size = s.Snake_size ∧
      s1.Snake_currentDirection = s.Snake_currentDirection ∧
      s1.Cube_map.length = 64 ∧
      (∀ x1 y1 z1, InBounds x1 y1 z1 →
        gridBit x1 y1 z1 s1 =
          ((gridBit x1 y1 z1 s || decide (x1 = x ∧ y1 = y ∧ z1 = z)) &&
            !decide (x1 = (s.Snake_body.getLast hne).x ∧ y1 = (s.Snake_body.getLast hne).y ∧
              z1 = (s.Snake_body.getLast hne).z))) := by
  refine ⟨_, Snake_NormalStep_eq x y z s hne, rfl, rfl, rfl, ?_, ?_⟩
  · simp [hlen]
  · intro x1 y1 z1 h1
    refine (gridBit_of_map_eq (Cube_ClearBitAt (s.Snake_body.getLast hne).x
        (s.Snake_body.getLast hne).y (s.Snake_body.getLast hne).z (Cube_SetBitAt x y z s))
        _ rfl x1 y1 z1).trans ?_
    rw [gridBit_Cube_ClearBitAt _ _ _ _ x1 y1 z1 htin h1,
      gridBit_Cube_SetBitAt s x y z x1 y1 z1 hlen hin h1]

theorem Cube_GenerateApple_some (rnd : Nat → Nat) (fuel : Nat) (s s1 : State)
    (h : Cube_GenerateApple fuel rnd s = some s1) : ∃ k, k < fuel ∧ SamplesClear rnd s k := by
  induction fuel generalizing s with
  | zero =>
    unfold Cube_GenerateApple at h
    exact Option.noConfusion h
  | succ n ih =>
    by_cases h0 : SamplesClear rnd s 0
    · exact ⟨0, Nat.succ_pos n, h0⟩
    · unfold Cube_GenerateApple at h
      have hon : Cube_IsBitOnAt ((rnd s.rand_calls % 8 : Nat) : Int)
          ((rnd (s.rand_calls + 1) % 8 : Nat) : Int) ((rnd (s.rand_calls + 2) % 8 : Nat) : Int)
          { s with rand_calls := s.rand_calls + 3 } = true := by
        rw [Cube_IsBitOnAt_rand_calls]
        unfold SamplesClear sampleAt at h0
        simp only [Nat.mul_zero, Nat.add_zero] at h0
        simpa using h0
      simp only [hon, bne_self_eq_false, Bool.true_bne, Bool.not_false, if_true] at h
      obtain ⟨k, hk, hc⟩ := ih _ h
      refine ⟨k + 1, by omega, ?_⟩
      unfold SamplesClear sampleAt at hc ⊢
      simp only at hc
      rw [Cube_IsBitOnAt_rand_calls] at hc
      have e : s.rand_calls + 3 + 3 * k = s.rand_calls + 3 * (k + 1) := by omega
      rw [e] at hc
      exact hc

theorem getLast_not_mem_dropLast (l : List Snake_Segment) (h : l ≠ []) (hl : l.Nodup) :
    l.getLast h ∉ l.dropLast := by
  have hsplit := List.dropLast_append_getLast h
  rw [← hsplit] at hl
  intro hm
  have hd := (List.nodup_append.1 hl).2.2
  exact hd hm (List.mem_singleton_self _) 

theorem segment_eq_iff (seg : Snake_Segment) (x y z : Int) :
    (seg.x = x ∧ seg.y = y ∧ seg.z = z) ↔ seg = ⟨x, y, z⟩ := by
  cases seg
  simp

/-- An apple step at an in-bounds position that is not a segment keeps the invariant of
the body, provided it returns. -/
theorem Snake_AppleStep_inv (fuel : Nat) (rnd : Nat → Nat) (x y z : Int) (s s1 : State)
    (hinv : BodyInvariant s) (hin : InBounds x y z)
    (hnot : (⟨x, y, z⟩ : Snake_Segment) ∉ s.Snake_body)
    (hstep : Snake_AppleStep fuel rnd x y z s = some s1) :
    BodyInvariant s1 ∧ s1.Snake_body = ⟨x, y, z⟩ :: s.Snake_body ∧
      s1.Snake_size = s.Snake_size + 1 ∧
      s1.Snake_currentDirection = s.Snake_currentDirection ∧
      countSetBits s1 = countSetBits (Cube_SetBitAt x y z s) + 1 := by
  have hgen := hstep
  rw [Snake_AppleStep_eq fuel rnd x y z s hinv.body_ne_nil] at hgen
  obtain ⟨k, hk, hc2⟩ := Cube_GenerateApple_some rnd fuel _ s1 hgen
  have hkin := sampleAt_inBounds rnd s k
  have hc2' : gridBit (sampleAt rnd s k).1 (sampleAt rnd s k).2.1 (sampleAt rnd s k).2.2
      (Cube_SetBitAt x y z s) = false := by
    unfold SamplesClear at hc2
    rw [Cube_IsBitOnAt_eq_gridBit] at hc2
    exact hc2
  rw [gridBit_Cube_SetBitAt s x y z _ _ _ hinv.map_length hin hkin] at hc2'
  simp only [Bool.or_eq_false_iff, decide_eq_false_iff_not] at hc2'
  have hclear : SamplesClear rnd s k := by
    unfold SamplesClear
    rw [Cube_IsBitOnAt_eq_gridBit]
    exact hc2'.1
  have hx : sampleAt rnd s k ≠ (x, y, z) := by
    intro h
    apply hc2'.2
    rw [h]
    exact ⟨rfl, rfl, rfl⟩
  obtain ⟨s1', ax, ay, az, hstep', hain, haoff, hane, hb, hsz, hdir, hlen, hbits⟩ :=
    Snake_AppleStep_spec fuel rnd x y z s hinv.map_length hinv.body_ne_nil hin k hk hclear hx
  rw [hstep] at hstep'
  obtain rfl := Option.some.inj hstep'
  refine ⟨⟨hlen, ?_, ?_, ?_, ?_⟩, hb, hsz, hdir, ?_⟩
  · rw [hb]
    exact List.cons_ne_nil _ _
  · rw [hb]
    exact List.nodup_cons.2 ⟨hnot, hinv.body_nodup⟩
  · intro seg hseg
    rw [hb] at hseg
    rcases List.mem_cons.1 hseg with h | h
    · rw [h]
      exact hin
    · exact hinv.body_inBounds seg h
  · intro seg hseg
    rw [hb] at hseg
    rcases List.mem_cons.1 hseg with h | h
    · rw [h, hbits _ _ _ hin]
      simp
    · rw [hbits _ _ _ (hinv.body_inBounds seg h), hinv.body_bits seg h]
      rfl
  · apply countSetBits_succ _ _ ax ay az hain
    · rw [gridBit_Cube_SetBitAt s x y z _ _ _ hinv.map_length hin hain, haoff]
      have : ¬ (ax = x ∧ ay = y ∧ az = z) := by
        rintro ⟨h1, h2, h3⟩
        apply hane
        rw [h1, h2, h3]
      simp [this]
    · intro x1 y1 z1 h1
      rw [hbits x1 y1 z1 h1, gridBit_Cube_SetBitAt s x y z _ _ _ hinv.map_length hin h1]

/-- A normal step into an in-bounds cell whose bit is clear keeps the invariant. -/
theorem Snake_NormalStep_inv (x y z : Int) (s s1 : State)
    (hinv : GameInvariant s) (hin : InBounds x y z) (hoff : gridBit x y z s = false)
    (hstep : Snake_NormalStep x y z s = some s1) :
    GameInvariant s1 := by
  have hne := hinv.body.body_ne_nil
  have htmem := List.getLast_mem hne
  have htin := hinv.body.body_inBounds _ htmem
  have hton := hinv.body.body_bits _ htmem
  obtain ⟨s1', hstep', hb, hsz, -, hlen, hbits⟩ :=
    Snake_NormalStep_spec x y z s hinv.body.map_length hne hin htin
  rw [hstep] at hstep'
  obtain rfl := Option.some.inj hstep'
  have hnot : (⟨x, y, z⟩ : Snake_Segment) ∉ s.Snake_body := by
    intro hm
    have := hinv.body.body_bits _ hm
    simp only at this
    rw [hoff] at this
    exact Bool.noConfusion this
  have hsub : ∀ seg, seg ∈ s.Snake_body.dropLast → seg ∈ s.Snake_body :=
    fun seg h => List.mem_of_mem_dropLast h
  have hneTail : ∀ seg ∈ s1.Snake_body,
      ¬ (seg.x = (s.Snake_body.getLast hne).x ∧ seg.y = (s.Snake_body.getLast hne).y ∧
        seg.z = (s.Snake_body.getLast hne).z) := by
    intro seg hseg hc
    have heq : seg = s.Snake_body.getLast hne := by
      rw [segment_eq_iff] at hc
      exact hc
    rw [hb] at hseg
    rcases List.mem_cons.1 hseg with h | h
    · apply hnot
      rw [← h, heq]
      exact htmem
    · rw [heq] at h
      exact getLast_not_mem_dropLast _ hne hinv.body.body_nodup h
  refine ⟨⟨hlen, ?_, ?_, ?_, ?_⟩, ?_, ?_⟩
  · rw [hb]
    exact List.cons_ne_nil _ _
  · rw [hb]
    refine List.nodup_cons.2 ⟨fun h => hnot (hsub _ h), ?_⟩
    exact hinv.body.body_nodup.sublist (List.dropLast_sublist _)
  · intro seg hseg
    rw [hb] at hseg
    rcases List.mem_cons.1 hseg with h | h
    · rw [h]
      exact hin
    · exact hinv.body.body_inBounds seg (hsub _ h)
  · intro seg hseg
    have hnt := hneTail seg hseg
    rw [hb] at hseg
    rcases List.mem_cons.1 hseg with h | h
    · have hnt' := hnt
      rw [h] at hnt' ⊢
      rw [hbits _ _ _ hin]
      simp only at hnt'
      simp [hnt']
    · rw [hbits _ _ _ (hinv.body.body_inBounds seg (hsub _ h)),
        hinv.body.body_bits seg (hsub _ h)]
      simp [hnt]
  · rw [hsz, hinv.size_eq, hb, List.length_cons, List.length_dropLast]
    have := List.length_pos.2 hne
    omega
  · have h1 : countSetBits (Cube_SetBitAt x y z s) = countSetBits s + 1 :=
      countSetBits_succ s _ x y z hin hoff
        (fun x1 y1 z1 h1 => gridBit_Cube_SetBitAt s x y z x1 y1 z1 hinv.body.map_length hin h1)
    have h2 : countSetBits s1 + 1 = countSetBits (Cube_SetBitAt x y z s) := by
      apply countSetBits_pred _ _ _ _ _ htin
      · rw [gridBit_Cube_SetBitAt s x y z _ _ _ hinv.body.map_length hin htin, hton]
        rfl
      · intro x1 y1 z1 h1
        rw [hbits x1 y1 z1 h1, gridBit_Cube_SetBitAt s x y z _ _ _ hinv.body.map_length hin h1]
    rw [hb, List.length_cons, List.length_dropLast]
    have := hinv.count_eq
    have := List.length_pos.2 hne
    omega

theorem Snake_Turn_frame (directionChange : DirectionChange) (s : State) :
    (Snake_Turn directionChange s).Cube_map = s.Cube_map ∧
    (Snake_Turn directionChange s).Snake_body = s.Snake_body ∧
    (Snake_Turn directionChange s).Snake_size = s.Snake_size ∧
    (Snake_Turn directionChange s).rand_calls = s.rand_calls := by
  obtain ⟨size, body, ⟨a, b, c⟩, map, calls⟩ := s
  cases directionChange
  case CENTRE => exact ⟨rfl, rfl, rfl, rfl⟩
  all_goals
    simp only [Snake_Turn]
    split_ifs <;> exact ⟨rfl, rfl, rfl, rfl⟩

theorem Snake_Turn_inv (directionChange : DirectionChange) (s : State)
    (hinv : GameInvariant s) : GameInvariant (Snake_Turn directionChange s) := by
  obtain ⟨hmap, hbody, hsize, -⟩ := Snake_Turn_frame directionChange s
  refine ⟨⟨?_, ?_, ?_, ?_, ?_⟩, ?_, ?_⟩
  · rw [hmap]
    exact hinv.body.map_length
  · rw [hbody]
    exact hinv.body.body_ne_nil
  · rw [hbody]
    exact hinv.body.body_nodup
  · rw [hbody]
    exact hinv.body.body_inBounds
  · intro seg hseg
    rw [hbody] at hseg
    rw [gridBit_of_map_eq _ _ hmap]
    exact hinv.body.body_bits seg hseg
  · rw [hsize, hbody]
    exact hinv.size_eq
  · rw [countSetBits_of_map_eq _ _ hmap, hbody]
    exact hinv.count_eq

theorem Snake_Step_inv (fuel : Nat) (rnd : Nat → Nat) (moved : Bool) (s s1 : State)
    (hinv : GameInvariant s) (hstep : Snake_Step fuel rnd s = some (moved, s1)) :
    GameInvariant s1 := by
  obtain ⟨head, rest, hbody⟩ := List.exists_cons_of_ne_nil hinv.body.body_ne_nil
  rw [Snake_Step_eq fuel rnd s head rest hbody] at hstep
  cases hc : Cube_GetCellStateAt (head.x + s.Snake_currentDirection.1)
      (head.y + s.Snake_currentDirection.2.1) (head.z + s.Snake_currentDirection.2.2) s
  · -- EMPTY
    rw [hc] at hstep
    simp only [Option.map_eq_some', Prod.mk.injEq] at hstep
    obtain ⟨s2, hs2, -, rfl⟩ := hstep
    obtain ⟨hin, hoff⟩ := Cube_GetCellStateAt_empty _ _ _ s hc
    exact Snake_NormalStep_inv _ _ _ s s2 hinv hin hoff hs2
  · -- APPLE
    rw [hc] at hstep
    simp only [Option.map_eq_some', Prod.mk.injEq] at hstep
    obtain ⟨s2, hs2, -, rfl⟩ := hstep
    obtain ⟨hin, hon, hnot⟩ := Cube_GetCellStateAt_apple _ _ _ s hc
    obtain ⟨hb2, hbody2, hsize2, -, hcount2⟩ :=
      Snake_AppleStep_inv fuel rnd _ _ _ s s2 hinv.body hin hnot hs2
    refine ⟨hb2, ?_, ?_⟩
    · rw [hsize2, hinv.size_eq, hbody2, List.length_cons]
      push_cast
      rfl
    · have hsame : countSetBits (Cube_SetBitAt (head.x + s.Snake_currentDirection.1)
          (head.y + s.Snake_currentDirection.2.1) (head.z + s.Snake_currentDirection.2.2) s)
          = countSetBits s := by
        apply countSetBits_congr
        intro x1 y1 z1 h1
        rw [gridBit_Cube_SetBitAt s _ _ _ x1 y1 z1 hinv.body.map_length hin h1]
        by_cases hxyz : x1 = head.x + s.Snake_currentDirection.1 ∧
            y1 = head.y + s.Snake_currentDirection.2.1 ∧
            z1 = head.z + s.Snake_currentDirection.2.2
        · obtain ⟨rfl, rfl, rfl⟩ := hxyz
          rw [hon]
          rfl
        · simp [hxyz]
      rw [hcount2, hsame, hinv.count_eq, hbody2, List.length_cons]
  · -- SNAKE
    rw [hc] at hstep
    simp only [Option.some.injEq, Prod.mk.injEq] at hstep
    rw [← hstep.2]
    exact hinv
  · -- WALL
    rw [hc] at hstep
    simp only [Option.some.injEq, Prod.mk.injEq] at hstep
    rw [← hstep.2]
    exact hinv

/-- The state after `Snake_Init` on an all-zero map, with both the start and the cell in
front of it in bounds and distinct, provided the call returns. -/
theorem Snake_Init_inv (fuel : Nat) (rnd : Nat → Nat) (x y z : Int) (s s1 : State)
    (hzero : s.Cube_map = List.replicate 64 0) (hin : InBounds x y z)
    (hin2 : InBounds (x + s.Snake_currentDirection.1) (y + s.Snake_currentDirection.2.1)
      (z + s.Snake_currentDirection.2.2))
    (hdir : s.Snake_currentDirection ≠ (0, 0, 0))
    (hinit : Snake_Init fuel rnd x y z s = some s1) :
    GameInvariant s1 ∧
      s1.Snake_body = [⟨x + s.Snake_currentDirection.1, y + s.Snake_currentDirection.2.1,
        z + s.Snake_currentDirection.2.2⟩, ⟨x, y, z⟩] ∧
      s1.Snake_size = 2 ∧ s1.Snake_currentDirection = s.Snake_currentDirection ∧
      countSetBits s1 = 3 := by
  have hlen : s.Cube_map.length = 64 := by rw [hzero]; rfl
  set s0 : State := { s with Snake_body := [⟨x, y, z⟩] } with hs0
  set s3 : State := { Cube_SetBitAt x y z s0 with Snake_size := 1 } with hs3
  have hinit3 : Snake_AppleStep fuel rnd (x + s.Snake_currentDirection.1)
      (y + s.Snake_currentDirection.2.1) (z + s.Snake_currentDirection.2.2) s3 = some s1 := hinit
  have hbit3 : ∀ x1 y1 z1, InBounds x1 y1 z1 →
      gridBit x1 y1 z1 s3 = decide (x1 = x ∧ y1 = y ∧ z1 = z) := by
    intro x1 y1 z1 h1
    rw [gridBit_of_map_eq (Cube_SetBitAt x y z s0) s3 rfl,
      gridBit_Cube_SetBitAt s0 x y z x1 y1 z1 hlen hin h1, gridBit_zero x1 y1 z1 s0 hzero]
    rfl
  have hcount3 : countSetBits s3 = 1 := by
    have h0 : countSetBits s0 = 0 := countSetBits_zero s0 hzero
    have := countSetBits_succ s0 s3 x y z hin (gridBit_zero x y z s0 hzero) (by
      intro x1 y1 z1 h1
      rw [hbit3 x1 y1 z1 h1, gridBit_zero x1 y1 z1 s0 hzero]
      rfl)
    omega
  have hb3 : BodyInvariant s3 := by
    refine ⟨by simp [hs3, hs0, hlen], List.cons_ne_nil _ _, List.nodup_singleton _, ?_, ?_⟩
    · intro seg hseg
      rw [List.mem_singleton.1 hseg]
      exact hin
    · intro seg hseg
      rw [List.mem_singleton.1 hseg, hbit3 _ _ _ hin]
      simp
  have hne : ¬ (x + s.Snake_currentDirection.1 = x ∧ y + s.Snake_currentDirection.2.1 = y ∧
      z + s.Snake_currentDirection.2.2 = z) := by
    rintro ⟨h1, h2, h3⟩
    apply hdir
    have e1 : s.Snake_currentDirection.1 = 0 := by omega
    have e2 : s.Snake_currentDirection.2.1 = 0 := by omega
    have e3 : s.Snake_currentDirection.2.2 = 0 := by omega
    exact Prod.ext e1 (Prod.ext e2 e3)
  have hnot : (⟨x + s.Snake_currentDirection.1, y + s.Snake_currentDirection.2.1,
      z + s.Snake_currentDirection.2.2⟩ : Snake_Segment) ∉ s3.Snake_body := by
    intro hm
    have := List.mem_singleton.1 hm
    simp only [Snake_Segment.mk.injEq] at this
    exact hne this
  obtain ⟨hb1, hbody1, hsize1, hdir1, hcount1⟩ :=
    Snake_AppleStep_inv fuel rnd _ _ _ s3 s1 hb3 hin2 hnot hinit3
  have hcount4 : countSetBits (Cube_SetBitAt (x + s.Snake_currentDirection.1)
      (y + s.Snake_currentDirection.2.1) (z + s.Snake_currentDirection.2.2) s3) = 2 := by
    have := countSetBits_succ s3 _ _ _ _ hin2 (by rw [hbit3 _ _ _ hin2]; exact decide_eq_false hne)
      (fun x1 y1 z1 h1 => gridBit_Cube_SetBitAt s3 _ _ _ x1 y1 z1 hb3.map_length hin2 h1)
    omega
  have hbody : s1.Snake_body = [⟨x + s.Snake_currentDirection.1,
      y + s.Snake_currentDirection.2.1, z + s.Snake_currentDirection.2.2⟩, ⟨x, y, z⟩] := hbody1
  have hsize : s1.Snake_size = 2 := by
    rw [hsize1]
    rfl
  have hcount : countSetBits s1 = 3 := by
    rw [hcount1, hcount4]
  refine ⟨⟨hb1, ?_, ?_⟩, hbody, hsize, hdir1, hcount⟩
  · rw [hsize, hbody]
    rfl
  · rw [hcount, hbody]
    rfl

theorem Reachable_inv (rnd : Nat → Nat) (s : State) (h : Reachable rnd s) :
    GameInvariant s := by
  induction h with
  | init fuel s hinit =>
    exact (Snake_Init_inv fuel rnd 0 5 5 Game_initial s rfl (by decide) (by decide)
      (by decide) hinit).1
  | turn directionChange s _ ih => exact Snake_Turn_inv directionChange s ih
  | step fuel moved s s1 _ hstep ih => exact Snake_Step_inv fuel rnd moved s s1 ih hstep

/-- An apple step at an in-bounds position that returns has sampled, within the fuel, a
cell that is clear on entry and is not that position. -/
theorem Snake_AppleStep_some (fuel : Nat) (rnd : Nat → Nat) (x y z : Int) (s s1 : State)
    (hlen : s.Cube_map.length = 64) (hne : s.Snake_body ≠ []) (hin : InBounds x y z)
    (hstep : Snake_AppleStep fuel rnd x y z s = some s1) :
    ∃ k, k < fuel ∧ SamplesClear rnd s k ∧ sampleAt rnd s k ≠ (x, y, z) := by
  rw [Snake_AppleStep_eq fuel rnd x y z s hne] at hstep
  obtain ⟨k, hk, hc2⟩ := Cube_GenerateApple_some rnd fuel _ s1 hstep
  have hkin := sampleAt_inBounds rnd s k
  have hc2' : gridBit (sampleAt rnd s k).1 (sampleAt rnd s k).2.1 (sampleAt rnd s k).2.2
      (Cube_SetBitAt x y z s) = false := by
    unfold SamplesClear at hc2
    rw [Cube_IsBitOnAt_eq_gridBit] at hc2
    exact hc2
  rw [gridBit_Cube_SetBitAt s x y z _ _ _ hlen hin hkin] at hc2'
  simp only [Bool.or_eq_false_iff, decide_eq_false_iff_not] at hc2'
  refine ⟨k, hk, ?_, ?_⟩
  · unfold SamplesClear
    rw [Cube_IsBitOnAt_eq_gridBit]
    exact hc2'.1
  · intro h
    apply hc2'.2
    rw [h]
    exact ⟨rfl, rfl, rfl⟩

/-- For a clear in-bounds cell there is an oracle whose first sample in state `s` is
that cell. -/
theorem exists_oracle_samplesClear (s : State) (x y z : Int) (hin : InBounds x y z)
    (hoff : gridBit x y z s = false) :
    ∃ rnd : Nat → Nat, SamplesClear rnd s 0 := by
  refine ⟨fun n => if n = s.rand_calls then x.toNat
    else if n = s.rand_calls + 1 then y.toNat else z.toNat, ?_⟩
  have hs : sampleAt (fun n => if n = s.rand_calls then x.toNat
      else if n = s.rand_calls + 1 then y.toNat else z.toNat) s 0 = (x, y, z) := by
    unfold InBounds at hin
    unfold sampleAt
    have h1 : ¬ (s.rand_calls + 1 = s.rand_calls) := by omega
    have h2 : ¬ (s.rand_calls + 2 = s.rand_calls) := by omega
    have h3 : ¬ (s.rand_calls + 2 = s.rand_calls + 1) := by omega
    simp only [Nat.mul_zero, Nat.add_zero, if_true, if_neg h1, if_neg h2, if_neg h3]
    refine Prod.ext ?_ (Prod.ext ?_ ?_) <;> simp only <;> omega
  unfold SamplesClear
  rw [hs, Cube_IsBitOnAt_eq_gridBit]
  exact hoff

/-- On an all-zero map `Snake_Init` returns as soon as the fuel covers an iteration of
apple generation that samples a cell other than the two segments. -/
theorem Snake_Init_returns (fuel : Nat) (rnd : Nat → Nat) (x y z : Int) (s : State)
    (hzero : s.Cube_map = List.replicate 64 0)
    (hunit : IsUnitHeading s.Snake_currentDirection)
    (hin : InBounds x y z)
    (hin2 : InBounds (x + s.Snake_currentDirection.1) (y + s.Snake_currentDirection.2.1)
      (z + s.Snake_currentDirection.2.2))
    (k : Nat) (hk : k < fuel)
    (hk1 : sampleAt rnd s k ≠ (x, y, z))
    (hk2 : sampleAt rnd s k ≠ (x + s.Snake_currentDirection.1,
      y + s.Snake_currentDirection.2.1, z + s.Snake_currentDirection.2.2)) :
    ∃ s1, Snake_Init fuel rnd x y z s = some s1 ∧
      s1.Snake_size = 2 ∧ s1.Snake_body.length = 2 ∧
      s1.Snake_body = [⟨x + s.Snake_currentDirection.1, y + s.Snake_currentDirection.2.1,
        z + s.Snake_currentDirection.2.2⟩, ⟨x, y, z⟩] ∧
      countSetBits s1 = 3 := by
  have hlen : s.Cube_map.length = 64 := by rw [hzero]; rfl
  have hdir := isUnitHeading_ne_zero _ hunit
  have hnot : ¬ ((sampleAt rnd s k).1 = x ∧ (sampleAt rnd s k).2.1 = y ∧
      (sampleAt rnd s k).2.2 = z) := by
    rintro ⟨h1, h2, h3⟩
    apply hk1
    rw [← h1, ← h2, ← h3]
  have hbit : gridBit (sampleAt rnd s k).1 (sampleAt rnd s k).2.1 (sampleAt rnd s k).2.2
      (Cube_SetBitAt x y z { s with Snake_body := [⟨x, y, z⟩] }) = false := by
    rw [gridBit_Cube_SetBitAt { s with Snake_body := [⟨x, y, z⟩] } x y z _ _ _ hlen hin
        (sampleAt_inBounds rnd s k),
      gridBit_zero _ _ _ { s with Snake_body := [⟨x, y, z⟩] } hzero]
    exact (Bool.false_or _).trans (decide_eq_false hnot)
  have hclear : SamplesClear rnd
      { Cube_SetBitAt x y z { s with Snake_body := [⟨x, y, z⟩] } with Snake_size := 1 } k := by
    unfold SamplesClear
    rw [Cube_IsBitOnAt_eq_gridBit]
    exact hbit
  obtain ⟨s1, -, -, -, hstep, -⟩ :=
    Snake_AppleStep_spec fuel rnd (x + s.Snake_currentDirection.1)
      (y + s.Snake_currentDirection.2.1) (z + s.Snake_currentDirection.2.2)
      { Cube_SetBitAt x y z { s with Snake_body := [⟨x, y, z⟩] } with Snake_size := 1 }
      (by simp [hlen]) (List.cons_ne_nil _ _) hin2 k hk hclear hk2
  have hinit : Snake_Init fuel rnd x y z s = some s1 := hstep
  obtain ⟨-, hbody, hsize, -, hcount⟩ :=
    Snake_Init_inv fuel rnd x y z s s1 hzero hin hin2 hdir hinit
  refine ⟨s1, hinit, hsize, ?_, hbody, hcount⟩
  rw [hbody]
  rfl

/-! ## Headings, filling the map and the game loop -/

theorem isUnitHeading_cases (d : Int × Int × Int) (h : IsUnitHeading d) :
    d = (1, 0, 0) ∨ d = (-1, 0, 0) ∨ d = (0, 1, 0) ∨ d = (0, -1, 0) ∨
      d = (0, 0, 1) ∨ d = (0, 0, -1) := by
  obtain ⟨a, b, c⟩ := d
  unfold IsUnitHeading at h
  simp only at h
  rcases h with ⟨h1 | h1, h2, h3⟩ | ⟨h1, h2 | h2, h3⟩ | ⟨h1, h2, h3 | h3⟩ <;>
    subst h1 h2 h3 <;> simp

/-- The heading after a turn, for each of the six unit headings and each intent. -/
theorem Snake_Turn_direction_of_unit (directionChange : DirectionChange) (s : State)
    (h : IsUnitHeading s.Snake_currentDirection) :
    (Snake_Turn directionChange s).Snake_currentDirection ≠
        (-s.Snake_currentDirection.1, -s.Snake_currentDirection.2.1,
          -s.Snake_currentDirection.2.2) ∧
      ((Snake_Turn directionChange s).Snake_currentDirection = s.Snake_currentDirection ∨
        s.Snake_currentDirection.1 * (Snake_Turn directionChange s).Snake_currentDirection.1 +
          s.Snake_currentDirection.2.1 *
            (Snake_Turn directionChange s).Snake_currentDirection.2.1 +
          s.Snake_currentDirection.2.2 *
            (Snake_Turn directionChange s).Snake_currentDirection.2.2 = 0) := by
  have hc := isUnitHeading_cases _ h
  obtain ⟨size, body, d, map, calls⟩ := s
  simp only at hc
  rcases hc with rfl | rfl | rfl | rfl | rfl | rfl <;> cases directionChange <;>
    simp [Snake_Turn]

theorem foldl_set_one_length (n : Nat) (map : List Nat) :
    ((List.range n).foldl (fun acc i => acc.set i 1) map).length = map.length := by
  induction n with
  | zero => rfl
  | succ n ih => rw [List.range_succ, List.foldl_append, List.foldl_cons, List.foldl_nil,
      List.length_set, ih]

theorem foldl_set_one_getD (n : Nat) (map : List Nat) (j : Nat) :
    ((List.range n).foldl (fun acc i => acc.set i 1) map).getD j 0
      = if j < n ∧ j < map.length then 1 else map.getD j 0 := by
  induction n with
  | zero => simp
  | succ n ih =>
    rw [List.range_succ, List.foldl_append, List.foldl_cons, List.foldl_nil, getD_set_zero,
      foldl_set_one_length, ih]
    by_cases hnj : n = j
    · subst hnj
      by_cases hlt : n < map.length
      · simp [hlt]
      · simp [hlt]
    · by_cases hlt : j < n
      · have : j < n + 1 := by omega
        simp [hnj, hlt, this]
      · have : ¬ j < n + 1 := by omega
        simp [hnj, hlt, this]

/-- After `Cube_SetAll` every byte of a map of 64 bytes is `1`. -/
theorem Cube_SetAll_getD (s : State) (hlen : s.Cube_map.length = 64) (j : Nat) (hj : j < 64) :
    (Cube_SetAll s).Cube_map.getD j 0 = 1 := by
  unfold Cube_SetAll
  simp only
  rw [foldl_set_one_getD, if_pos ⟨hj, by omega⟩]

theorem Game_Loop_succ (n fuel : Nat) (rnd : Nat → Nat) (adc : Nat → Int × Int)
    (iteration : Nat) (s : State) :
    Game_Loop (n + 1) fuel rnd adc iteration s =
      match Game_Iteration fuel rnd (adc iteration) s with
      | none => none
      | some (Game_Status.Running, s1, sent) =>
        (Game_Loop n fuel rnd adc (iteration + 1) s1).map
          (fun result => (result.1, result.2.1, sent ++ result.2.2))
      | some (status, s1, sent) => some (status, s1, sent) := rfl

/-! ## Game runs and the calls made in them -/

theorem Snake_AppleStep_eq_generateCall (fuel : Nat) (rnd : Nat → Nat) (x y z : Int)
    (s : State) :
    Snake_AppleStep fuel rnd x y z s =
      (Snake_AppleStep_generateCall x y z s).bind (Cube_GenerateApple fuel rnd) := by
  unfold Snake_AppleStep Snake_AppleStep_generateCall
  cases Snake_AddHead x y z s <;> rfl

theorem Game_Iteration_running (fuel : Nat) (rnd : Nat → Nat) (channels : Int × Int)
    (s s1 : State) (sent : List Nat)
    (h : Game_Iteration fuel rnd channels s = some (Game_Status.Running, s1, sent)) :
    Snake_Step fuel rnd (Snake_Turn (Controller_GetDirection channels.1 channels.2) s)
        = some (true, s1) ∧ s1.Snake_size ≠ WIN_LENGTH := by
  unfold Game_Iteration at h
  simp only at h
  cases hstep : Snake_Step fuel rnd
      (Snake_Turn (Controller_GetDirection channels.1 channels.2) s) with
  | none =>
    rw [hstep] at h
    exact Option.noConfusion h
  | some result =>
    obtain ⟨moved, s2⟩ := result
    rw [hstep] at h
    cases moved with
    | false =>
      simp only [Option.some.injEq, Prod.mk.injEq, reduceCtorEq, false_and] at h
    | true =>
      simp only at h
      by_cases hwin : s2.Snake_size = WIN_LENGTH
      · simp only [hwin, beq_self_eq_true, if_true, Option.some.injEq, Prod.mk.injEq,
          reduceCtorEq, false_and] at h
      · have hb : (s2.Snake_size == WIN_LENGTH) = false := by
          simpa using hwin
        rw [hb] at h
        simp only [Bool.false_eq_true, if_false, Option.some.injEq, Prod.mk.injEq,
          true_and] at h
        obtain ⟨rfl, -⟩ := h
        exact ⟨rfl, hwin⟩

/-- A step that returns `true` in a state with the data invariant puts the candidate in
front of the body, which keeps all its segments or loses the last, and keeps the
heading. -/
theorem Snake_Step_true_spec (fuel : Nat) (rnd : Nat → Nat) (s s1 : State)
    (hinv : GameInvariant s) (hstep : Snake_Step fuel rnd s = some (true, s1)) :
    ∃ head rest, s.Snake_body = head :: rest ∧
      s1.Snake_currentDirection = s.Snake_currentDirection ∧
      ((s1.Snake_body = ⟨head.x + s.Snake_currentDirection.1,
          head.y + s.Snake_currentDirection.2.1, head.z + s.Snake_currentDirection.2.2⟩
            :: head :: rest ∧ s1.Snake_size = s.Snake_size + 1) ∨
       (s1.Snake_body = ⟨head.x + s.Snake_currentDirection.1,
          head.y + s.Snake_currentDirection.2.1, head.z + s.Snake_currentDirection.2.2⟩
            :: (head :: rest).dropLast ∧ s1.Snake_size = s.Snake_size)) := by
  obtain ⟨head, rest, hbody⟩ := List.exists_cons_of_ne_nil hinv.body.body_ne_nil
  refine ⟨head, rest, hbody, ?_⟩
  rw [Snake_Step_eq fuel rnd s head rest hbody] at hstep
  cases hc : Cube_GetCellStateAt (head.x + s.Snake_currentDirection.1)
      (head.y + s.Snake_currentDirection.2.1) (head.z + s.Snake_currentDirection.2.2) s
  · -- EMPTY
    rw [hc] at hstep
    simp only [Option.map_eq_some', Prod.mk.injEq, true_and] at hstep
    obtain ⟨s2, hs2, rfl⟩ := hstep
    rw [Snake_NormalStep_eq _ _ _ s hinv.body.body_ne_nil] at hs2
    obtain rfl := Option.some.inj hs2
    refine ⟨rfl, Or.inr ⟨?_, rfl⟩⟩
    simp only [hbody]
  · -- APPLE
    rw [hc] at hstep
    simp only [Option.map_eq_some', Prod.mk.injEq, true_and] at hstep
    obtain ⟨s2, hs2, rfl⟩ := hstep
    obtain ⟨hin, -, hnot⟩ := Cube_GetCellStateAt_apple _ _ _ s hc
    obtain ⟨-, hbody2, hsize2, hdir2, -⟩ :=
      Snake_AppleStep_inv fuel rnd _ _ _ s s2 hinv.body hin hnot hs2
    refine ⟨hdir2, Or.inl ⟨?_, hsize2⟩⟩
    rw [hbody2, hbody]
  · -- SNAKE
    rw [hc] at hstep
    simp only [Option.some.injEq, Prod.mk.injEq, Bool.false_eq_true, false_and] at hstep
  · -- WALL
    rw [hc] at hstep
    simp only [Option.some.injEq, Prod.mk.injEq, Bool.false_eq_true, false_and] at hstep

theorem Snake_Turn_runInvariant_part (directionChange : DirectionChange) (s : State)
    (hinv : RunInvariant s) :
    GameInvariant (Snake_Turn directionChange s) ∧
      IsUnitHeading (Snake_Turn directionChange s).Snake_currentDirection ∧
      (Snake_Turn directionChange s).Snake_size < WIN_LENGTH ∧
      (Snake_Turn directionChange s).Snake_body = s.Snake_body :=
  ⟨Snake_Turn_inv directionChange s hinv.game,
    Snake_Turn_isUnitHeading directionChange s hinv.heading_unit,
    by rw [(Snake_Turn_frame directionChange s).2.2.1]; exact hinv.size_lt,
    (Snake_Turn_frame directionChange s).2.1⟩

theorem Game_Iteration_runInvariant (fuel : Nat) (rnd : Nat → Nat) (channels : Int × Int)
    (s s1 : State) (sent : List Nat) (hinv : RunInvariant s)
    (h : Game_Iteration fuel rnd channels s = some (Game_Status.Running, s1, sent)) :
    RunInvariant s1 := by
  obtain ⟨hstep, hwin⟩ := Game_Iteration_running fuel rnd channels s s1 sent h
  obtain ⟨hgame, hunit, hsize, hbodyT⟩ :=
    Snake_Turn_runInvariant_part (Controller_GetDirection channels.1 channels.2) s hinv
  obtain ⟨head, neck, rest, hbody, -⟩ := hinv.neck
  obtain ⟨head1, rest1, hbody1, hdir1, hcases⟩ :=
    Snake_Step_true_spec fuel rnd _ s1 hgame hstep
  rw [hbodyT, hbody] at hbody1
  obtain ⟨rfl, rfl⟩ := List.cons.inj hbody1
  refine ⟨Snake_Step_inv fuel rnd true _ s1 hgame hstep, ?_, ?_, ?_⟩
  · unfold WIN_LENGTH at hsize hwin ⊢
    rcases hcases with ⟨-, hs⟩ | ⟨-, hs⟩ <;> omega
  · rw [hdir1]
    exact hunit
  · have hdiff : s1.Snake_currentDirection =
        (head.x + s1.Snake_currentDirection.1 - head.x,
          head.y + s1.Snake_currentDirection.2.1 - head.y,
          head.z + s1.Snake_currentDirection.2.2 - head.z) := by
      refine Prod.ext ?_ (Prod.ext ?_ ?_) <;> simp only <;> omega
    rw [← hdir1] at hcases
    rcases hcases with ⟨hb, -⟩ | ⟨hb, -⟩
    · exact ⟨⟨head.x + s1.Snake_currentDirection.1, head.y + s1.Snake_currentDirection.2.1,
        head.z + s1.Snake_currentDirection.2.2⟩, head, neck :: rest, hb, hdiff⟩
    · refine ⟨⟨head.x + s1.Snake_currentDirection.1, head.y + s1.Snake_currentDirection.2.1,
        head.z + s1.Snake_currentDirection.2.2⟩, head, (neck :: rest).dropLast, ?_, hdiff⟩
      rw [hb, List.dropLast_cons_of_ne_nil (List.cons_ne_nil neck rest)]

theorem Game_Running_inv (rnd : Nat → Nat) (adc : Nat → Int × Int) (iteration : Nat)
    (s : State) (h : Game_Running rnd adc iteration s) : RunInvariant s := by
  induction h with
  | start fuel s hinit =>
    obtain ⟨hgame, hbody, hsize, hdir, -⟩ :=
      Snake_Init_inv fuel rnd 0 5 5 Game_initial s rfl (by decide) (by decide) (by decide) hinit
    refine ⟨hgame, ?_, ?_, ?_⟩
    · rw [hsize]
      decide
    · rw [hdir]
      decide
    · exact ⟨_, _, [], hbody, by rw [hdir]; rfl⟩
  | next fuel iteration s s1 sent _ hiter ih =>
    exact Game_Iteration_runInvariant fuel rnd (adc iteration) s s1 sent ih hiter

theorem Snake_Init_eq_generateCall (fuel : Nat) (rnd : Nat → Nat) (x y z : Int) (s : State) :
    Snake_Init fuel rnd x y z s =
      (Snake_Init_generateCall x y z s).bind (Cube_GenerateApple fuel rnd) := by
  unfold Snake_Init Snake_Init_generateCall
  exact Snake_AppleStep_eq_generateCall fuel rnd _ _ _ _

theorem Snake_Step_eq_generateCall (fuel : Nat) (rnd : Nat → Nat) (s : State)
    (head : Snake_Segment) (rest : List Snake_Segment) (hbody : s.Snake_body = head :: rest)
    (happle : Cube_GetCellStateAt (head.x + s.Snake_currentDirection.1)
        (head.y + s.Snake_currentDirection.2.1) (head.z + s.Snake_currentDirection.2.2) s
        = CellState.APPLE) :
    Snake_Step fuel rnd s =
      ((Snake_Step_generateCall s).bind (Cube_GenerateApple fuel rnd)).map
        (fun s1 => (true, s1)) := by
  have hcall : Snake_Step_generateCall s =
      Snake_AppleStep_generateCall (head.x + s.Snake_currentDirection.1)
        (head.y + s.Snake_currentDirection.2.1) (head.z + s.Snake_currentDirection.2.2) s := by
    unfold Snake_Step_generateCall
    rw [hbody]
    simp only [happle]
  rw [Snake_Step_eq fuel rnd s head rest hbody, happle, hcall,
    ← Snake_AppleStep_eq_generateCall]

theorem exists_clear_of_countSetBits_lt (s : State) (h : countSetBits s < 512) :
    ∃ x y z, InBounds x y z ∧ Cube_IsBitOnAt x y z s = false := by
  by_contra hall
  have hevery : ∀ k ∈ List.range 512, (fun k => bitAt k s) k = true := by
    intro k hk
    have hk512 := List.mem_range.1 hk
    cases hb : bitAt k s
    · exfalso
      apply hall
      refine ⟨_, _, _, inBounds_of_index k hk512, ?_⟩
      rw [Cube_IsBitOnAt_eq_gridBit, ← bitAt_eq_gridBit, hb]
    · exact hb
  have hcount : countSetBits s = 512 := by
    unfold countSetBits
    rw [List.countP_eq_length.2 hevery, List.length_range]
  omega

theorem countSetBits_Cube_SetBitAt_of_set (s : State) (x y z : Int)
    (hlen : s.Cube_map.length = 64) (hin : InBounds x y z) (hon : gridBit x y z s = true) :
    countSetBits (Cube_SetBitAt x y z s) = countSetBits s := by
  apply countSetBits_congr
  intro x1 y1 z1 h1
  rw [gridBit_Cube_SetBitAt s x y z x1 y1 z1 hlen hin h1]
  by_cases hxyz : x1 = x ∧ y1 = y ∧ z1 = z
  · obtain ⟨rfl, rfl, rfl⟩ := hxyz
    rw [hon]
    rfl
  · simp [hxyz]

/-- The globals at a call of `Cube_GenerateApple` made by `Snake_Step` in a state with
the data invariant: no more bits are set than before the step. -/
theorem Snake_Step_generateCall_count (s e : State) (hinv : GameInvariant s)
    (hcall : Snake_Step_generateCall s = some e) :
    countSetBits e = countSetBits s := by
  obtain ⟨head, rest, hbody⟩ := List.exists_cons_of_ne_nil hinv.body.body_ne_nil
  have hcall' : (match Cube_GetCellStateAt (head.x + s.Snake_currentDirection.1)
      (head.y + s.Snake_currentDirection.2.1) (head.z + s.Snake_currentDirection.2.2) s with
    | CellState.APPLE => Snake_AppleStep_generateCall (head.x + s.Snake_currentDirection.1)
        (head.y + s.Snake_currentDirection.2.1) (head.z + s.Snake_currentDirection.2.2) s
    | _ => none) = some e := by
    unfold Snake_Step_generateCall at hcall
    rw [hbody] at hcall
    exact hcall
  cases hc : Cube_GetCellStateAt (head.x + s.Snake_currentDirection.1)
      (head.y + s.Snake_currentDirection.2.1) (head.z + s.Snake_currentDirection.2.2) s
  case APPLE =>
    rw [hc] at hcall'
    simp only at hcall'
    obtain ⟨hin, hon, -⟩ := Cube_GetCellStateAt_apple _ _ _ s hc
    unfold Snake_AppleStep_generateCall at hcall'
    rw [Snake_AddHead_eq _ _ _ s hinv.body.body_ne_nil] at hcall'
    simp only [Option.bind_eq_bind, Option.some_bind, Option.some.injEq] at hcall'
    rw [← hcall']
    exact (countSetBits_of_map_eq (Cube_SetBitAt _ _ _ s) _ rfl).trans
      (countSetBits_Cube_SetBitAt_of_set s _ _ _ hinv.body.map_length hin hon)
  all_goals
    rw [hc] at hcall'
    exact Option.noConfusion hcall'

theorem Cube_GenerateApple_calls_inBounds (fuel : Nat) (rnd : Nat → Nat) (s : State) :
    ∀ c ∈ Cube_GenerateApple_calls fuel rnd s, InBounds c.1 c.2.1 c.2.2 := by
  induction fuel generalizing s with
  | zero =>
    intro c hc
    unfold Cube_GenerateApple_calls at hc
    exact absurd hc (List.not_mem_nil c)
  | succ n ih =>
    intro c hc
    unfold Cube_GenerateApple_calls at hc
    simp only at hc
    have hsample : InBounds ((rnd s.rand_calls % 8 : Nat) : Int)
        ((rnd (s.rand_calls + 1) % 8 : Nat) : Int) ((rnd (s.rand_calls + 2) % 8 : Nat) : Int) := by
      unfold InBounds
      omega
    rcases List.mem_cons.1 hc with h | h
    · rw [h]
      exact hsample
    · split_ifs at h
      · exact ih _ c h
      · rw [List.mem_singleton.1 h]
        exact hsample

theorem Cube_GetCellStateAt_calls_inBounds (x y z : Int) :
    ∀ c ∈ Cube_GetCellStateAt_calls x y z, InBounds c.1 c.2.1 c.2.2 := by
  intro c hc
  unfold Cube_GetCellStateAt_calls at hc
  split_ifs at hc with hoob
  · exact absurd hc (List.not_mem_nil c)
  · rw [List.mem_singleton.1 hc]
    unfold Cube_DimensionOutOfBounds at hoob
    unfold InBounds
    simp only [Bool.or_eq_true, Bool.if_true_left, Bool.decide_eq_true, Bool.or_false,
      decide_eq_true_eq, not_or, not_lt, ge_iff_le, not_le, ite_eq_left_iff,
      Bool.false_eq_true, imp_false, Decidable.not_not] at hoob
    simp only
    omega

theorem Snake_AppleStep_calls_inBounds (fuel : Nat) (rnd : Nat → Nat) (x y z : Int)
    (s : State) (hin : InBounds x y z) :
    ∀ c ∈ Snake_AppleStep_calls fuel rnd x y z s, InBounds c.1 c.2.1 c.2.2 := by
  intro c hc
  unfold Snake_AppleStep_calls at hc
  rcases List.mem_cons.1 hc with h | h
  · rw [h]
    exact hin
  · cases hcall : Snake_AppleStep_generateCall x y z s with
    | none =>
      rw [hcall] at h
      exact absurd h (List.not_mem_nil c)
    | some s2 =>
      rw [hcall] at h
      exact Cube_GenerateApple_calls_inBounds fuel rnd s2 c h

theorem Snake_NormalStep_calls_inBounds (x y z : Int) (s : State) (hinv : BodyInvariant s)
    (hin : InBounds x y z) :
    ∀ c ∈ Snake_NormalStep_calls x y z s, InBounds c.1 c.2.1 c.2.2 := by
  intro c hc
  unfold Snake_NormalStep_calls at hc
  rcases List.mem_cons.1 hc with h | h
  · rw [h]
    exact hin
  · rw [Snake_AddHead_eq x y z s hinv.body_ne_nil] at h
    unfold Snake_PopTail_calls at h
    simp only at h
    rw [List.getLast?_eq_getLast _ (List.cons_ne_nil _ _),
      List.getLast_cons hinv.body_ne_nil] at h
    rw [List.mem_singleton.1 h]
    exact hinv.body_inBounds _ (List.getLast_mem hinv.body_ne_nil)

theorem Snake_Step_calls_inBounds (fuel : Nat) (rnd : Nat → Nat) (s : State)
    (hinv : BodyInvariant s) :
    ∀ c ∈ Snake_Step_calls fuel rnd s, InBounds c.1 c.2.1 c.2.2 := by
  intro c hc
  obtain ⟨head, rest, hbody⟩ := List.exists_cons_of_ne_nil hinv.body_ne_nil
  have hc' : c ∈ Cube_GetCellStateAt_calls (head.x + s.Snake_currentDirection.1)
      (head.y + s.Snake_currentDirection.2.1) (head.z + s.Snake_currentDirection.2.2) ++
      (match Cube_GetCellStateAt (head.x + s.Snake_currentDirection.1)
          (head.y + s.Snake_currentDirection.2.1) (head.z + s.Snake_currentDirection.2.2) s with
       | CellState.WALL => []
       | CellState.SNAKE => []
       | CellState.APPLE => Snake_AppleStep_calls fuel rnd (head.x + s.Snake_currentDirection.1)
          (head.y + s.Snake_currentDirection.2.1) (head.z + s.Snake_currentDirection.2.2) s
       | CellState.EMPTY => Snake_NormalStep_calls (head.x + s.Snake_currentDirection.1)
          (head.y + s.Snake_currentDirection.2.1) (head.z + s.Snake_currentDirection.2.2) s) := by
    unfold Snake_Step_calls at hc
    rw [hbody] at hc
    exact hc
  rcases List.mem_append.1 hc' with h | h
  · exact Cube_GetCellStateAt_calls_inBounds _ _ _ c h
  · cases hcell : Cube_GetCellStateAt (head.x + s.Snake_currentDirection.1)
        (head.y + s.Snake_currentDirection.2.1) (head.z + s.Snake_currentDirection.2.2) s
    · rw [hcell] at h
      exact Snake_NormalStep_calls_inBounds _ _ _ s hinv
        (Cube_GetCellStateAt_empty _ _ _ s hcell).1 c h
    · rw [hcell] at h
      exact Snake_AppleStep_calls_inBounds fuel rnd _ _ _ s
        (Cube_GetCellStateAt_apple _ _ _ s hcell).1 c h
    · rw [hcell] at h
      exact absurd h (List.not_mem_nil c)
    · rw [hcell] at h
      exact absurd h (List.not_mem_nil c)

theorem Snake_Init_calls_inBounds (fuel : Nat) (rnd : Nat → Nat) :
    ∀ c ∈ Snake_Init_calls fuel rnd 0 5 5 Game_initial, InBounds c.1 c.2.1 c.2.2 := by
  intro c hc
  unfold Snake_Init_calls at hc
  rcases List.mem_cons.1 hc with h | h
  · rw [h]
    decide
  · exact Snake_AppleStep_calls_inBounds fuel rnd _ _ _ _ (by decide) c h

/-! # Main results -/

/-! ## Stepping: the blocked case -/

/-- C1: with a non-empty body, `Snake_Step` returns `false` exactly when the cell at
head + heading is classified `WALL` or `SNAKE`, and a call that returns `false` leaves
the whole state as it was: the 64 bytes of the map, the body, `Snake_size` and the
heading. -/
theorem Snake_Step_false_iff (fuel : Nat) (rnd : Nat → Nat) (s : State)
    (head : Snake_Segment) (rest : List Snake_Segment) (hbody : s.Snake_body = head :: rest) :
    ((∃ s1, Snake_Step fuel rnd s = some (false, s1)) ↔
      (Cube_GetCellStateAt (head.x + s.Snake_currentDirection.1)
          (head.y + s.Snake_currentDirection.2.1) (head.z + s.Snake_currentDirection.2.2) s
          = CellState.WALL ∨
       Cube_GetCellStateAt (head.x + s.Snake_currentDirection.1)
          (head.y + s.Snake_currentDirection.2.1) (head.z + s.Snake_currentDirection.2.2) s
          = CellState.SNAKE)) ∧
    (∀ s1, Snake_Step fuel rnd s = some (false, s1) →
      s1 = s ∧ s1.Cube_map = s.Cube_map ∧ s1.Snake_body = s.Snake_body ∧
      s1.Snake_size = s.Snake_size ∧
      s1.Snake_currentDirection = s.Snake_currentDirection) := by
  unfold Snake_Step
  rw [hbody]
  simp only
  cases hc : Cube_GetCellStateAt (head.x + s.Snake_currentDirection.1)
      (head.y + s.Snake_currentDirection.2.1) (head.z + s.Snake_currentDirection.2.2) s
  · -- EMPTY
    simp only [Option.map_eq_some', Prod.mk.injEq, Bool.true_eq_false, false_and, and_false,
      exists_false, reduceCtorEq, or_self, false_implies, implies_true, and_self]
  · -- APPLE
    simp only [Option.map_eq_some', Prod.mk.injEq, Bool.true_eq_false, false_and, and_false,
      exists_false, reduceCtorEq, or_self, false_implies, implies_true, and_self]
  · -- SNAKE
    refine ⟨⟨fun _ => Or.inr rfl, fun _ => ⟨s, rfl⟩⟩, ?_⟩
    intro s1 h
    simp only [Option.some.injEq, Prod.mk.injEq, true_and] at h
    subst h
    exact ⟨rfl, rfl, hbody, rfl, rfl⟩
  · -- WALL
    refine ⟨⟨fun _ => Or.inl rfl, fun _ => ⟨s, rfl⟩⟩, ?_⟩
    intro s1 h
    simp only [Option.some.injEq, Prod.mk.injEq, true_and] at h
    subst h
    exact ⟨rfl, rfl, hbody, rfl, rfl⟩

theorem Snake_Step_false_iff_witness :
    facingWallState.Snake_body = [⟨7, 5, 5⟩, ⟨6, 5, 5⟩] ∧
    (∃ s1, Snake_Step 0 (fun _ => 0) facingWallState = some (false, s1)) ∧
    (∀ s1, Snake_Step 0 (fun _ => 0) facingWallState = some (false, s1) →
      s1 = facingWallState) :=
  ⟨rfl,
    (Snake_Step_false_iff 0 (fun _ => 0) facingWallState ⟨7, 5, 5⟩ [⟨6, 5, 5⟩] rfl).1.2
      (Or.inl (by decide)),
    fun s1 h =>
      ((Snake_Step_false_iff 0 (fun _ => 0) facingWallState ⟨7, 5, 5⟩ [⟨6, 5, 5⟩] rfl).2
        s1 h).1⟩

/-! ## Stepping into an empty cell -/

/-- The condition on the bit of the tail cannot be dropped.  In `tailAheadState` the
segments are distinct and in bounds but their bits are clear, and the candidate `(2,5,5)`
is the cell of the tail and is classified `EMPTY`: the step returns `true` and leaves the
bit of the candidate clear, because `Snake_PopTail` clears it after `Snake_AddHead` set
it.  No game run reaches such a state. -/
theorem Snake_Step_empty_tail_ahead :
    tailAheadState.Snake_body ≠ [] ∧ tailAheadState.Snake_body.Nodup ∧
    (∀ seg ∈ tailAheadState.Snake_body, InBounds seg.x seg.y seg.z) ∧
    Cube_GetCellStateAt 2 5 5 tailAheadState = CellState.EMPTY ∧
    Snake_Step 0 (fun _ => 0) tailAheadState =
      some (true, { tailAheadState with Snake_body := [⟨2, 5, 5⟩, ⟨1, 5, 5⟩] }) ∧
    gridBit 2 5 5 { tailAheadState with Snake_body := [⟨2, 5, 5⟩, ⟨1, 5, 5⟩] } = false := by
  refine ⟨by decide, by decide, by decide, by decide, by decide, by decide⟩

/-! ## Stepping into an apple -/

/-- C3 (amended): take a state with a non-empty body whose candidate cell head + heading
is classified `APPLE`.  As soon as apple generation samples a position whose bit is clear,
`Snake_Step` returns `true`, and afterwards the body is the candidate followed by the whole
old body, `Snake_size` and the number of segments have both grown by exactly one, the bit
of the candidate is still set, and no grid bit that was set has been cleared.  Every call
that returns, for every oracle of `rand()`, returns `true` with that state; and if the map
has a clear bit there is an oracle for which the call returns. -/
theorem Snake_Step_apple (s : State) (head : Snake_Segment) (rest : List Snake_Segment)
    (hlen : s.Cube_map.length = 64) (hbody : s.Snake_body = head :: rest)
    (happle : Cube_GetCellStateAt (head.x + s.Snake_currentDirection.1)
        (head.y + s.Snake_currentDirection.2.1) (head.z + s.Snake_currentDirection.2.2) s
        = CellState.APPLE) :
    (∀ fuel rnd k, k < fuel → SamplesClear rnd s k →
      ∃ s1, Snake_Step fuel rnd s = some (true, s1) ∧
        s1.Snake_body = ⟨head.x + s.Snake_currentDirection.1,
          head.y + s.Snake_currentDirection.2.1, head.z + s.Snake_currentDirection.2.2⟩
            :: head :: rest ∧
        s1.Snake_size = s.Snake_size + 1 ∧
        s1.Snake_body.length = s.Snake_body.length + 1 ∧
        gridBit (head.x + s.Snake_currentDirection.1) (head.y + s.Snake_currentDirection.2.1)
          (head.z + s.Snake_currentDirection.2.2) s1 = true ∧
        (∀ x y z, InBounds x y z → gridBit x y z s = true → gridBit x y z s1 = true)) ∧
    (∀ fuel rnd moved s1, Snake_Step fuel rnd s = some (moved, s1) →
      moved = true ∧
      s1.Snake_body = ⟨head.x + s.Snake_currentDirection.1,
        head.y + s.Snake_currentDirection.2.1, head.z + s.Snake_currentDirection.2.2⟩
          :: head :: rest ∧
      s1.Snake_size = s.Snake_size + 1 ∧
      s1.Snake_body.length = s.Snake_body.length + 1 ∧
      gridBit (head.x + s.Snake_currentDirection.1) (head.y + s.Snake_currentDirection.2.1)
        (head.z + s.Snake_currentDirection.2.2) s1 = true ∧
      (∀ x y z, InBounds x y z → gridBit x y z s = true → gridBit x y z s1 = true)) ∧
    ((∃ x y z, InBounds x y z ∧ gridBit x y z s = false) →
      ∃ fuel rnd s1, Snake_Step fuel rnd s = some (true, s1)) := by
  have hne : s.Snake_body ≠ [] := by rw [hbody]; exact List.cons_ne_nil _ _
  obtain ⟨hin, -, -⟩ := Cube_GetCellStateAt_apple _ _ _ s happle
  refine ⟨?_, ?_, ?_⟩
  · intro fuel rnd k hk hclear
    exact Snake_Step_apple_returns fuel rnd s head rest hlen hbody happle k hk hclear
  · intro fuel rnd moved s1 hstep
    have hstep' := hstep
    rw [Snake_Step_eq fuel rnd s head rest hbody, happle] at hstep'
    simp only [Option.map_eq_some', Prod.mk.injEq] at hstep'
    obtain ⟨s2, hs2, hmoved, rfl⟩ := hstep'
    obtain ⟨k, hk, hclear, -⟩ := Snake_AppleStep_some fuel rnd _ _ _ s s2 hlen hne hin hs2
    obtain ⟨s3, hs3, hpost⟩ :=
      Snake_Step_apple_returns fuel rnd s head rest hlen hbody happle k hk hclear
    rw [hstep] at hs3
    simp only [Option.some.injEq, Prod.mk.injEq] at hs3
    obtain ⟨-, rfl⟩ := hs3
    exact ⟨hmoved.symm, hpost⟩
  · rintro ⟨x, y, z, hxyz, hoff⟩
    obtain ⟨rnd, hclear⟩ := exists_oracle_samplesClear s x y z hxyz hoff
    obtain ⟨s1, hs1, -⟩ :=
      Snake_Step_apple_returns 1 rnd s head rest hlen hbody happle 0 (Nat.succ_pos 0) hclear
    exact ⟨1, rnd, s1, hs1⟩

theorem Snake_Step_apple_witness :
    ∃ s1, Snake_Step 1 (fun n => n) appleAheadState = some (true, s1) ∧
      s1.Snake_body = [⟨2, 5, 5⟩, ⟨1, 5, 5⟩, ⟨0, 5, 5⟩] ∧
      s1.Snake_size = 3 := by
  have h := Snake_Step_apple appleAheadState ⟨1, 5, 5⟩ [⟨0, 5, 5⟩] (by decide) rfl (by decide)
  obtain ⟨s1, hs1, h2, h3, -⟩ := h.1 1 (fun n => n) 0 (by decide) (by decide)
  exact ⟨s1, hs1, h2, h3⟩

/-- C3 as stated fails: in `appleAheadState` the body is not empty, the candidate `(2,5,5)`
is classified `APPLE` and the bit of `(0,0,0)` is clear, but when `rand()` returns
`1, 5, 5, 1, 5, 5, …` every sample is the cell `(1,5,5)` of the head, whose bit is set, and
`Snake_Step` does not return, whatever the number of iterations allowed. -/
theorem Snake_Step_apple_never_returns :
    appleAheadState.Snake_body = [⟨1, 5, 5⟩, ⟨0, 5, 5⟩] ∧
    Cube_GetCellStateAt 2 5 5 appleAheadState = CellState.APPLE ∧
    (InBounds 0 0 0 ∧ Cube_IsBitOnAt 0 0 0 appleAheadState = false) ∧
    ∀ fuel, Snake_Step fuel (fun n => if n % 3 = 0 then 1 else 5) appleAheadState = none := by
  refine ⟨rfl, by decide, ⟨by decide, by decide⟩, ?_⟩
  intro fuel
  cases hstep : Snake_Step fuel (fun n => if n % 3 = 0 then 1 else 5) appleAheadState with
  | none => rfl
  | some result =>
    exfalso
    obtain ⟨moved, s1⟩ := result
    have happle : Cube_GetCellStateAt 2 5 5 appleAheadState = CellState.APPLE := by decide
    rw [Snake_Step_eq fuel _ appleAheadState ⟨1, 5, 5⟩ [⟨0, 5, 5⟩] rfl] at hstep
    have hcand : Cube_GetCellStateAt
        ((⟨1, 5, 5⟩ : Snake_Segment).x + appleAheadState.Snake_currentDirection.1)
        ((⟨1, 5, 5⟩ : Snake_Segment).y + appleAheadState.Snake_currentDirection.2.1)
        ((⟨1, 5, 5⟩ : Snake_Segment).z + appleAheadState.Snake_currentDirection.2.2)
        appleAheadState = CellState.APPLE := happle
    rw [hcand] at hstep
    simp only [Option.map_eq_some', Prod.mk.injEq] at hstep
    obtain ⟨s2, hs2, -, -⟩ := hstep
    obtain ⟨k, -, hclear, -⟩ :=
      Snake_AppleStep_some fuel _ _ _ _ appleAheadState s2 (by decide) (by decide)
        (by decide) hs2
    have hsample : sampleAt (fun n => if n % 3 = 0 then 1 else 5) appleAheadState k
        = (1, 5, 5) := by
      unfold sampleAt
      have h0 : appleAheadState.rand_calls = 0 := rfl
      have e1 : (0 + 3 * k) % 3 = 0 := by omega
      have e2 : ¬ ((0 + 3 * k + 1) % 3 = 0) := by omega
      have e3 : ¬ ((0 + 3 * k + 2) % 3 = 0) := by omega
      simp only [h0, e1, e2, e3, if_true, if_false]
      rfl
    unfold SamplesClear at hclear
    rw [hsample] at hclear
    have hon : Cube_IsBitOnAt 1 5 5 appleAheadState = true := by decide
    rw [hon] at hclear
    exact Bool.noConfusion hclear

/-! ## Classification out of bounds -/

/-- C4: a coordinate with at least one axis below `0` or at least `8` is classified
`WALL`, whatever the map and the body hold. -/
theorem Cube_GetCellStateAt_outOfBounds (x y z : Int) (s : State)
    (h : (x < 0 ∨ x ≥ 8) ∨ (y < 0 ∨ y ≥ 8) ∨ (z < 0 ∨ z ≥ 8)) :
    Cube_GetCellStateAt x y z s = CellState.WALL := by
  unfold Cube_GetCellStateAt
  rcases h with h | h | h
  · simp [Cube_DimensionOutOfBounds_eq_true h]
  · simp [Cube_DimensionOutOfBounds_eq_true h]
  · simp [Cube_DimensionOutOfBounds_eq_true h]

theorem Cube_GetCellStateAt_outOfBounds_witness :
    ((-1 : Int) < 0 ∨ (-1 : Int) ≥ 8) ∧
      Cube_GetCellStateAt (-1) 5 5 ⟨2, [⟨0, 5, 5⟩], (-1, 0, 0), List.replicate 64 255, 0⟩
        = CellState.WALL :=
  ⟨by decide, Cube_GetCellStateAt_outOfBounds (-1) 5 5 _ (Or.inl (by decide))⟩

/-! ## Classification in bounds -/

/-- C5: for an in-bounds coordinate the classification is `EMPTY` exactly when bit `z`
of byte `8 * y + x` is clear, `SNAKE` exactly when the bit is set and some body segment
has this coordinate, `APPLE` exactly when the bit is set and no body segment has it, and
it is never `WALL`. -/
theorem Cube_GetCellStateAt_inBounds_iff (x y z : Int) (s : State) (h : InBounds x y z) :
    (Cube_GetCellStateAt x y z s = CellState.EMPTY ↔ gridBit x y z s = false) ∧
    (Cube_GetCellStateAt x y z s = CellState.SNAKE ↔
      gridBit x y z s = true ∧ ∃ seg ∈ s.Snake_body, seg.x = x ∧ seg.y = y ∧ seg.z = z) ∧
    (Cube_GetCellStateAt x y z s = CellState.APPLE ↔
      gridBit x y z s = true ∧ ∀ seg ∈ s.Snake_body, ¬ (seg.x = x ∧ seg.y = y ∧ seg.z = z)) ∧
    Cube_GetCellStateAt x y z s ≠ CellState.WALL := by
  have hmem : (⟨x, y, z⟩ : Snake_Segment) ∈ s.Snake_body ↔
      ∃ seg ∈ s.Snake_body, seg.x = x ∧ seg.y = y ∧ seg.z = z := by
    constructor
    · intro hm
      exact ⟨_, hm, rfl, rfl, rfl⟩
    · rintro ⟨seg, hm, h1, h2, h3⟩
      cases seg
      simp only at h1 h2 h3
      subst h1 h2 h3
      exact hm
  have hnmem : (⟨x, y, z⟩ : Snake_Segment) ∉ s.Snake_body ↔
      ∀ seg ∈ s.Snake_body, ¬ (seg.x = x ∧ seg.y = y ∧ seg.z = z) := by
    rw [hmem]
    constructor
    · intro hn seg hm hc
      exact hn ⟨seg, hm, hc⟩
    · rintro hn ⟨seg, hm, hc⟩
      exact hn seg hm hc
  rw [Cube_GetCellStateAt_inBounds x y z s h, ← hmem, ← hnmem]
  cases hb : gridBit x y z s
  · simp
  · by_cases hm : (⟨x, y, z⟩ : Snake_Segment) ∈ s.Snake_body
    · simp [hm]
    · simp [hm]

theorem Cube_GetCellStateAt_inBounds_iff_witness :
    InBounds 1 5 5 ∧
      (Cube_GetCellStateAt 1 5 5 ⟨2, [⟨1, 5, 5⟩, ⟨0, 5, 5⟩], (1, 0, 0),
          (List.replicate 64 0).set 41 32, 0⟩ = CellState.SNAKE ↔
        gridBit 1 5 5 ⟨2, [⟨1, 5, 5⟩, ⟨0, 5, 5⟩], (1, 0, 0),
          (List.replicate 64 0).set 41 32, 0⟩ = true ∧
        ∃ seg ∈ [(⟨1, 5, 5⟩ : Snake_Segment), ⟨0, 5, 5⟩], seg.x = 1 ∧ seg.y = 5 ∧ seg.z = 5) :=
  ⟨by decide, (Cube_GetCellStateAt_inBounds_iff 1 5 5 _ (by decide)).2.1⟩

/-! ## Set bits in a game run -/

/-- C6: in every state of a game run, for every oracle of `rand()`, the number of set
bits among the 512 grid bits is `Snake_size + 1`: the segments and one apple. -/
theorem Reachable_countSetBits (rnd : Nat → Nat) (s : State) (h : Reachable rnd s) :
    (countSetBits s : Int) = s.Snake_size + 1 := by
  have hinv := Reachable_inv rnd s h
  rw [hinv.count_eq, hinv.size_eq]
  push_cast
  rfl

theorem Reachable_countSetBits_witness :
    Reachable (fun n => n) afterInitState ∧
      (countSetBits afterInitState : Int) = afterInitState.Snake_size + 1 :=
  ⟨Reachable.init 1 afterInitState (by decide),
    Reachable_countSetBits (fun n => n) afterInitState
      (Reachable.init 1 afterInitState (by decide))⟩

/-! ## The body in a game run -/

/-- C7: in every state of a game run the body has at least one segment, the bit of every
segment is set, and no two segments have the same coordinate. -/
theorem Reachable_body (rnd : Nat → Nat) (s : State) (h : Reachable rnd s) :
    1 ≤ s.Snake_body.length ∧
    (∀ seg ∈ s.Snake_body, gridBit seg.x seg.y seg.z s = true) ∧
    s.Snake_body.Nodup := by
  have hinv := Reachable_inv rnd s h
  exact ⟨List.length_pos.2 hinv.body.body_ne_nil, hinv.body.body_bits, hinv.body.body_nodup⟩

theorem Reachable_body_witness :
    Reachable (fun n => n) (Snake_Turn DirectionChange.LEFT afterInitState) ∧
      (Snake_Turn DirectionChange.LEFT afterInitState).Snake_body.Nodup :=
  ⟨Reachable.turn _ _ (Reachable.init 1 afterInitState (by decide)),
    (Reachable_body (fun n => n) _
      (Reachable.turn DirectionChange.LEFT _ (Reachable.init 1 afterInitState (by decide)))).2.2⟩

/-! ## Initialisation -/

/-- C8 (amended): on an all-zero map with a unit heading, for every start such that the
start and the cell in front of it are in bounds, every call of `Snake_Init` that returns,
for every oracle of `rand()`, leaves `Snake_size` and the number of segments at `2`, the
body equal to the cell in front followed by the start, and exactly three grid bits set:
the two segments and the first apple.  The call returns as soon as apple generation
samples a cell other than the two segments. -/
theorem Snake_Init_length_two (x y z : Int) (s : State)
    (hzero : s.Cube_map = List.replicate 64 0)
    (hunit : IsUnitHeading s.Snake_currentDirection)
    (hin : InBounds x y z)
    (hin2 : InBounds (x + s.Snake_currentDirection.1) (y + s.Snake_currentDirection.2.1)
      (z + s.Snake_currentDirection.2.2)) :
    (∀ fuel rnd s1, Snake_Init fuel rnd x y z s = some s1 →
      s1.Snake_size = 2 ∧ s1.Snake_body.length = 2 ∧
      s1.Snake_body = [⟨x + s.Snake_currentDirection.1, y + s.Snake_currentDirection.2.1,
        z + s.Snake_currentDirection.2.2⟩, ⟨x, y, z⟩] ∧
      countSetBits s1 = 3) ∧
    (∀ fuel rnd k, k < fuel → sampleAt rnd s k ≠ (x, y, z) →
      sampleAt rnd s k ≠ (x + s.Snake_currentDirection.1,
        y + s.Snake_currentDirection.2.1, z + s.Snake_currentDirection.2.2) →
      ∃ s1, Snake_Init fuel rnd x y z s = some s1) := by
  refine ⟨?_, ?_⟩
  · intro fuel rnd s1 hinit
    obtain ⟨-, hbody, hsize, -, hcount⟩ :=
      Snake_Init_inv fuel rnd x y z s s1 hzero hin hin2 (isUnitHeading_ne_zero _ hunit) hinit
    refine ⟨hsize, ?_, hbody, hcount⟩
    rw [hbody]
    rfl
  · intro fuel rnd k hk hk1 hk2
    obtain ⟨s1, hs1, -⟩ := Snake_Init_returns fuel rnd x y z s hzero hunit hin hin2 k hk hk1 hk2
    exact ⟨s1, hs1⟩

theorem Snake_Init_length_two_witness :
    ∃ s1, Snake_Init 1 (fun n => n) 0 5 5 Game_initial = some s1 ∧
      s1.Snake_size = 2 ∧ s1.Snake_body = [⟨1, 5, 5⟩, ⟨0, 5, 5⟩] ∧ countSetBits s1 = 3 := by
  have h := Snake_Init_length_two 0 5 5 Game_initial rfl (by decide) (by decide) (by decide)
  obtain ⟨s1, hs1⟩ := h.2 1 (fun n => n) 0 (by decide) (by decide) (by decide)
  obtain ⟨h2, -, h4, h5⟩ := h.1 1 (fun n => n) s1 hs1
  exact ⟨s1, hs1, h2, h4, h5⟩

/-- C8 as stated fails: `Snake_Init(0, 5, 5)` on the all-zero map with heading `(1,0,0)`
leaves a snake of length `2` and three set bits, not two: `Snake_AppleStep` also
generates the first apple. -/
theorem Snake_Init_three_bits :
    Game_initial.Cube_map = List.replicate 64 0 ∧
    IsUnitHeading Game_initial.Snake_currentDirection ∧
    InBounds 0 5 5 ∧ InBounds 1 5 5 ∧
    Snake_Init 1 (fun n => n) 0 5 5 Game_initial = some afterInitState ∧
    afterInitState.Snake_body.length = 2 ∧
    countSetBits afterInitState = 3 ∧ countSetBits afterInitState ≠ 2 := by
  have hinit : Snake_Init 1 (fun n => n) 0 5 5 Game_initial = some afterInitState := by decide
  have hcount := (Snake_Init_inv 1 (fun n => n) 0 5 5 Game_initial afterInitState rfl
    (by decide) (by decide) (by decide) hinit).2.2.2.2
  refine ⟨rfl, by decide, by decide, by decide, hinit, rfl, hcount, ?_⟩
  rw [hcount]
  decide

/-! ## Turning keeps a unit heading -/

/-- C9: a turn with any intent maps a unit axis-aligned heading to a unit axis-aligned
heading, which is in particular not the zero vector; hence the heading after any
sequence of turns from the initial heading `(1, 0, 0)` is a unit axis-aligned vector. -/
theorem Snake_Turn_preserves_unit (s : State) (h : IsUnitHeading s.Snake_currentDirection) :
    (∀ directionChange : DirectionChange,
      IsUnitHeading (Snake_Turn directionChange s).Snake_currentDirection ∧
      (Snake_Turn directionChange s).Snake_currentDirection ≠ (0, 0, 0)) ∧
    (∀ (intents : List DirectionChange) (s0 : State),
      s0.Snake_currentDirection = (1, 0, 0) →
      IsUnitHeading (turnAll intents s0).Snake_currentDirection) := by
  refine ⟨fun directionChange => ?_, fun intents s0 h0 => ?_⟩
  · have hu := Snake_Turn_isUnitHeading directionChange s h
    exact ⟨hu, isUnitHeading_ne_zero _ hu⟩
  · apply turnAll_isUnitHeading
    rw [h0]
    decide

theorem Snake_Turn_preserves_unit_witness :
    IsUnitHeading (0, 0, -1) ∧
      IsUnitHeading
        (Snake_Turn DirectionChange.UP ⟨2, [⟨1, 5, 5⟩, ⟨1, 5, 6⟩], (0, 0, -1), [], 0⟩
          ).Snake_currentDirection :=
  ⟨by decide,
    ((Snake_Turn_preserves_unit ⟨2, [⟨1, 5, 5⟩, ⟨1, 5, 6⟩], (0, 0, -1), [], 0⟩
      (by decide)).1 DirectionChange.UP).1⟩

/-! ## Turning left and right -/

/-- C10: for a heading `(x, y, z)` with components in `{-1, 0, 1}`: if `z` is `1` or
`-1`, `LEFT` gives `(0, -1, 0)` and `RIGHT` gives `(0, 1, 0)`; otherwise `LEFT` gives
`(y, -x, 0)` and `RIGHT` gives `(-y, x, 0)`.  In particular `(1, 0, 0)` and `(0, 0, 1)`
both turn `LEFT` to `(0, -1, 0)`. -/
theorem Snake_Turn_left_right (s : State) (x y z : Int)
    (hd : s.Snake_currentDirection = (x, y, z))
    (hx : x = -1 ∨ x = 0 ∨ x = 1) (hy : y = -1 ∨ y = 0 ∨ y = 1) (hz : z = -1 ∨ z = 0 ∨ z = 1) :
    ((z = 1 ∨ z = -1) →
      (Snake_Turn DirectionChange.LEFT s).Snake_currentDirection = (0, -1, 0) ∧
      (Snake_Turn DirectionChange.RIGHT s).Snake_currentDirection = (0, 1, 0)) ∧
    (¬ (z = 1 ∨ z = -1) →
      (Snake_Turn DirectionChange.LEFT s).Snake_currentDirection = (y, -x, 0) ∧
      (Snake_Turn DirectionChange.RIGHT s).Snake_currentDirection = (-y, x, 0)) := by
  obtain ⟨size, body, ⟨a, b, c⟩, map, calls⟩ := s
  simp only [Prod.mk.injEq] at hd
  obtain ⟨rfl, rfl, rfl⟩ := hd
  constructor
  · intro h
    simp [Snake_Turn, h]
  · intro h
    simp [Snake_Turn, h]

theorem Snake_Turn_left_right_witness :
    (Snake_Turn DirectionChange.LEFT ⟨2, [⟨1, 5, 5⟩, ⟨0, 5, 5⟩], (1, 0, 0), [], 0⟩
        ).Snake_currentDirection = (0, -1, 0) ∧
    (Snake_Turn DirectionChange.LEFT ⟨2, [⟨1, 5, 5⟩, ⟨1, 5, 4⟩], (0, 0, 1), [], 0⟩
        ).Snake_currentDirection = (0, -1, 0) :=
  ⟨by
      have h := ((Snake_Turn_left_right ⟨2, [⟨1, 5, 5⟩, ⟨0, 5, 5⟩], (1, 0, 0), [], 0⟩ 1 0 0 rfl
        (by decide) (by decide) (by decide)).2 (by decide)).1
      simpa using h,
    ((Snake_Turn_left_right ⟨2, [⟨1, 5, 5⟩, ⟨1, 5, 4⟩], (0, 0, 1), [], 0⟩ 0 0 1 rfl
        (by decide) (by decide) (by decide)).1 (by decide)).1⟩

/-! ## Turning up and down -/

/-- C11: for every heading `(x, y, z)`, `Snake_Turn(UP)` gives `(0, 0, 1)` if `z ≠ -1` and
leaves the heading unchanged if `z = -1`; `Snake_Turn(DOWN)` gives `(0, 0, -1)` if `z ≠ 1`
and leaves the heading unchanged if `z = 1`. -/
theorem Snake_Turn_up_down (s : State) :
    (s.Snake_currentDirection.2.2 ≠ -1 →
      (Snake_Turn DirectionChange.UP s).Snake_currentDirection = (0, 0, 1)) ∧
    (s.Snake_currentDirection.2.2 = -1 →
      (Snake_Turn DirectionChange.UP s).Snake_currentDirection = s.Snake_currentDirection) ∧
    (s.Snake_currentDirection.2.2 ≠ 1 →
      (Snake_Turn DirectionChange.DOWN s).Snake_currentDirection = (0, 0, -1)) ∧
    (s.Snake_currentDirection.2.2 = 1 →
      (Snake_Turn DirectionChange.DOWN s).Snake_currentDirection = s.Snake_currentDirection) := by
  obtain ⟨size, body, ⟨a, b, c⟩, map, calls⟩ := s
  refine ⟨fun h => ?_, fun h => ?_, fun h => ?_, fun h => ?_⟩
  · simp only at h
    simp only [Snake_Turn, if_pos h]
  · simp only at h
    subst h
    simp [Snake_Turn]
  · simp only at h
    simp only [Snake_Turn, if_pos h]
  · simp only at h
    subst h
    simp [Snake_Turn]

theorem Snake_Turn_up_down_witness :
    (Snake_Turn DirectionChange.UP twoSegmentState).Snake_currentDirection = (0, 0, 1) ∧
    (Snake_Turn DirectionChange.DOWN twoSegmentState).Snake_currentDirection = (0, 0, -1) :=
  ⟨(Snake_Turn_up_down twoSegmentState).1 (by decide),
    (Snake_Turn_up_down twoSegmentState).2.2.1 (by decide)⟩

/-! ## A turn never reverses -/

/-- C12: for every unit axis-aligned heading `h` and every intent, the heading after
`Snake_Turn` is never `-h`; it is `h` itself or a heading perpendicular to `h`. -/
theorem Snake_Turn_never_reverses (s : State)
    (h : IsUnitHeading s.Snake_currentDirection) (directionChange : DirectionChange) :
    (Snake_Turn directionChange s).Snake_currentDirection ≠
        (-s.Snake_currentDirection.1, -s.Snake_currentDirection.2.1,
          -s.Snake_currentDirection.2.2) ∧
      ((Snake_Turn directionChange s).Snake_currentDirection = s.Snake_currentDirection ∨
        s.Snake_currentDirection.1 * (Snake_Turn directionChange s).Snake_currentDirection.1 +
          s.Snake_currentDirection.2.1 *
            (Snake_Turn directionChange s).Snake_currentDirection.2.1 +
          s.Snake_currentDirection.2.2 *
            (Snake_Turn directionChange s).Snake_currentDirection.2.2 = 0) :=
  Snake_Turn_direction_of_unit directionChange s h

theorem Snake_Turn_never_reverses_witness :
    IsUnitHeading twoSegmentState.Snake_currentDirection ∧
      (Snake_Turn DirectionChange.LEFT twoSegmentState).Snake_currentDirection ≠ (-1, -0, -0) :=
  ⟨by decide, (Snake_Turn_never_reverses twoSegmentState (by decide) DirectionChange.LEFT).1⟩

/-! ## Up then down -/

/-- C13: for every unit axis-aligned heading, `Snake_Turn(UP)` followed by
`Snake_Turn(DOWN)` leaves the same state as `Snake_Turn(UP)` alone, so the heading after
the pair is not the opposite of the heading after the first call. -/
theorem Snake_Turn_up_then_down (s : State) (h : IsUnitHeading s.Snake_currentDirection) :
    Snake_Turn DirectionChange.DOWN (Snake_Turn DirectionChange.UP s)
        = Snake_Turn DirectionChange.UP s ∧
      (Snake_Turn DirectionChange.DOWN (Snake_Turn DirectionChange.UP s)).Snake_currentDirection
        ≠ (-(Snake_Turn DirectionChange.UP s).Snake_currentDirection.1,
           -(Snake_Turn DirectionChange.UP s).Snake_currentDirection.2.1,
           -(Snake_Turn DirectionChange.UP s).Snake_currentDirection.2.2) := by
  have hc := isUnitHeading_cases _ h
  obtain ⟨size, body, d, map, calls⟩ := s
  simp only at hc
  rcases hc with rfl | rfl | rfl | rfl | rfl | rfl <;> simp [Snake_Turn]

theorem Snake_Turn_up_then_down_witness :
    IsUnitHeading twoSegmentState.Snake_currentDirection ∧
      Snake_Turn DirectionChange.DOWN (Snake_Turn DirectionChange.UP twoSegmentState)
        = Snake_Turn DirectionChange.UP twoSegmentState :=
  ⟨by decide, (Snake_Turn_up_then_down twoSegmentState (by decide)).1⟩

/-! ## Four turns to the left -/

/-- C14: for each of the four horizontal unit headings, four calls of `Snake_Turn(LEFT)`
in a row restore the heading, and with it the state. -/
theorem Snake_Turn_left_four_times (s : State)
    (h : s.Snake_currentDirection = (1, 0, 0) ∨ s.Snake_currentDirection = (-1, 0, 0) ∨
      s.Snake_currentDirection = (0, 1, 0) ∨ s.Snake_currentDirection = (0, -1, 0)) :
    Snake_Turn DirectionChange.LEFT (Snake_Turn DirectionChange.LEFT
      (Snake_Turn DirectionChange.LEFT (Snake_Turn DirectionChange.LEFT s))) = s ∧
    (turnAll [DirectionChange.LEFT, DirectionChange.LEFT, DirectionChange.LEFT,
      DirectionChange.LEFT] s).Snake_currentDirection = s.Snake_currentDirection := by
  obtain ⟨size, body, d, map, calls⟩ := s
  simp only at h
  rcases h with rfl | rfl | rfl | rfl <;> simp [Snake_Turn, turnAll]

theorem Snake_Turn_left_four_times_witness :
    Snake_Turn DirectionChange.LEFT (Snake_Turn DirectionChange.LEFT
      (Snake_Turn DirectionChange.LEFT (Snake_Turn DirectionChange.LEFT twoSegmentState)))
      = twoSegmentState :=
  (Snake_Turn_left_four_times twoSegmentState (Or.inl rfl)).1

/-! ## The win condition -/

/-- C15 (amended): after a successful step the loop of `Game_Start` is left in the state
`Won`, having called `Cube_SetAll` and sent one more frame, exactly when `Snake_size`
equals `WIN_LENGTH`, which is `100`; for every other `Snake_size` after a successful step
the loop goes on with the next iteration. -/
theorem Game_Iteration_won_iff (fuel : Nat) (rnd : Nat → Nat) (channels : Int × Int)
    (s s2 : State)
    (hstep : Snake_Step fuel rnd
      (Snake_Turn (Controller_GetDirection channels.1 channels.2) s) = some (true, s2)) :
    WIN_LENGTH = 100 ∧
    ((∃ s3 sent, Game_Iteration fuel rnd channels s = some (Game_Status.Won, s3, sent)) ↔
      s2.Snake_size = 100) ∧
    (s2.Snake_size = 100 →
      Game_Iteration fuel rnd channels s =
        some (Game_Status.Won, Cube_SetAll s2,
          Hardware_RenderCube s2 ++ Hardware_RenderCube (Cube_SetAll s2))) ∧
    (s2.Snake_size ≠ 100 →
      Game_Iteration fuel rnd channels s =
        some (Game_Status.Running, s2, Hardware_RenderCube s2)) ∧
    (∀ (n : Nat) (adc : Nat → Int × Int) (iteration : Nat), adc iteration = channels →
      (s2.Snake_size = 100 →
        Game_Loop (n + 1) fuel rnd adc iteration s =
          some (Game_Status.Won, Cube_SetAll s2,
            Hardware_RenderCube s2 ++ Hardware_RenderCube (Cube_SetAll s2))) ∧
      (s2.Snake_size ≠ 100 →
        Game_Loop (n + 1) fuel rnd adc iteration s =
          (Game_Loop n fuel rnd adc (iteration + 1) s2).map
            (fun result => (result.1, result.2.1, Hardware_RenderCube s2 ++ result.2.2)))) := by
  have hwon : s2.Snake_size = 100 →
      Game_Iteration fuel rnd channels s =
        some (Game_Status.Won, Cube_SetAll s2,
          Hardware_RenderCube s2 ++ Hardware_RenderCube (Cube_SetAll s2)) := by
    intro h
    unfold Game_Iteration
    simp only [hstep, h, WIN_LENGTH, beq_self_eq_true, if_true]
  have hrun : s2.Snake_size ≠ 100 →
      Game_Iteration fuel rnd channels s =
        some (Game_Status.Running, s2, Hardware_RenderCube s2) := by
    intro h
    unfold Game_Iteration
    simp only [hstep, WIN_LENGTH, beq_iff_eq, h, if_false]
  refine ⟨rfl, ⟨?_, ?_⟩, hwon, hrun, ?_⟩
  · rintro ⟨s3, sent, h3⟩
    by_contra hne
    rw [hrun hne] at h3
    simp only [Option.some.injEq, Prod.mk.injEq, reduceCtorEq, false_and] at h3
  · intro h
    exact ⟨_, _, hwon h⟩
  · intro n adc iteration hadc
    constructor
    · intro h
      rw [Game_Loop_succ, hadc, hwon h]
    · intro h
      rw [Game_Loop_succ, hadc, hrun h]

theorem Game_Iteration_won_iff_witness :
    Game_Iteration 0 (fun _ => 0) (2000, 2000) twoSegmentState =
        some (Game_Status.Running, movedOnceState, Hardware_RenderCube movedOnceState) :=
  (Game_Iteration_won_iff 0 (fun _ => 0) (2000, 2000) twoSegmentState movedOnceState
    (by decide)).2.2.2.1 (by decide)

/-- C15 as stated fails: `almostWonState` holds a snake of 99 segments with an apple in
front of its head.  The step succeeds and the snake has 100 segments, fewer than the 512
cells of the grid, yet the iteration ends in `Won` and the loop is left. -/
theorem Game_Iteration_won_at_100 :
    almostWonState.Snake_size = 99 ∧ almostWonState.Snake_body.length = 99 ∧
    (Game_Iteration 1 (fun n => n) (2000, 2000) almostWonState).map
      (fun result => (result.1, result.2.1.Snake_size, result.2.1.Snake_body.length))
      = some (Game_Status.Won, 100, 100) ∧
    (Game_Loop 1 1 (fun n => n) (fun _ => (2000, 2000)) 0 almostWonState).map
      (fun result => result.1) = some Game_Status.Won ∧
    (100 : Int) < NUM_LEDS := by
  refine ⟨rfl, by decide, by decide, by decide, by decide⟩

/-! ## Filling the map -/

/-- C16: the code does not do what the claim and its own comment say.  After
`Cube_SetAll` on a map of 64 bytes, `Cube_IsBitOnAt(x, y, z)` is true for an in-bounds
coordinate exactly when `z = 0`: each byte is `1`, so of the 512 grid bits only the 64
bits of the layer `z = 0` are set. -/
theorem Cube_SetAll_bits (s : State) (hlen : s.Cube_map.length = 64) (x y z : Int)
    (hin : InBounds x y z) :
    Cube_IsBitOnAt x y z (Cube_SetAll s) = decide (z = 0) := by
  rw [Cube_IsBitOnAt_eq_gridBit]
  unfold gridBit
  have hidx : (8 * y + x).toNat < 64 := by
    unfold InBounds at hin
    omega
  rw [Cube_SetAll_getD s hlen _ hidx]
  unfold InBounds at hin
  obtain ⟨-, -, hz0, hz8⟩ := hin
  by_cases hz : z = 0
  · subst hz
    decide
  · have h1 : z.toNat = (z.toNat - 1) + 1 := by omega
    rw [h1, Nat.testBit_succ]
    simp [hz]

theorem Cube_SetAll_bits_witness :
    Game_initial.Cube_map.length = 64 ∧ InBounds 0 0 1 ∧
      Cube_IsBitOnAt 0 0 1 (Cube_SetAll Game_initial) = false :=
  ⟨by decide, by decide, Cube_SetAll_bits Game_initial (by decide) 0 0 1 (by decide)⟩

/-! ## Generating an apple -/

/-- C17: for a map of 64 bytes and an oracle whose samples contain, within the fuel, a
position whose bit is clear, `Cube_GenerateApple` returns; the sample it used is the first
one whose bit was clear; that bit is set afterwards and every other grid bit is as before.
So the number of set bits has grown by exactly one, no set bit was altered, and the body,
`Snake_size` and the heading are untouched. -/
theorem Cube_GenerateApple_spec (rnd : Nat → Nat) (fuel : Nat) (s : State) (k : Nat)
    (hlen : s.Cube_map.length = 64) (hk : k < fuel) (hclear : SamplesClear rnd s k) :
    ∃ j s1, Cube_GenerateApple fuel rnd s = some s1 ∧
      j ≤ k ∧ SamplesClear rnd s j ∧ (∀ i, i < j → ¬ SamplesClear rnd s i) ∧
      gridBit (sampleAt rnd s j).1 (sampleAt rnd s j).2.1 (sampleAt rnd s j).2.2 s = false ∧
      gridBit (sampleAt rnd s j).1 (sampleAt rnd s j).2.1 (sampleAt rnd s j).2.2 s1 = true ∧
      (∀ x y z, InBounds x y z → (x, y, z) ≠ sampleAt rnd s j →
        gridBit x y z s1 = gridBit x y z s) ∧
      countSetBits s1 = countSetBits s + 1 ∧
      (∀ x y z, InBounds x y z → gridBit x y z s = true → gridBit x y z s1 = true) ∧
      s1.Snake_body = s.Snake_body ∧ s1.Snake_size = s.Snake_size ∧
      s1.Snake_currentDirection = s.Snake_currentDirection := by
  obtain ⟨j, hj, hcj, hmin, heq⟩ := Cube_GenerateApple_eq rnd fuel s k hk hclear
  have hjin := sampleAt_inBounds rnd s j
  have hoff : gridBit (sampleAt rnd s j).1 (sampleAt rnd s j).2.1 (sampleAt rnd s j).2.2 s
      = false := by
    unfold SamplesClear at hcj
    rw [Cube_IsBitOnAt_eq_gridBit] at hcj
    exact hcj
  have hbits : ∀ x y z, InBounds x y z →
      gridBit x y z (Cube_SetBitAt (sampleAt rnd s j).1 (sampleAt rnd s j).2.1
        (sampleAt rnd s j).2.2 { s with rand_calls := s.rand_calls + 3 * (j + 1) })
        = (gridBit x y z s || decide (x = (sampleAt rnd s j).1 ∧ y = (sampleAt rnd s j).2.1 ∧
            z = (sampleAt rnd s j).2.2)) := by
    intro x y z hxyz
    rw [gridBit_Cube_SetBitAt { s with rand_calls := s.rand_calls + 3 * (j + 1) } _ _ _ x y z
      hlen hjin hxyz]
    rfl
  refine ⟨j, _, heq, hj, hcj, hmin, hoff, ?_, ?_, ?_, ?_, rfl, rfl, rfl⟩
  · rw [hbits _ _ _ hjin]
    simp
  · intro x y z hxyz hne
    rw [hbits x y z hxyz]
    have : ¬ (x = (sampleAt rnd s j).1 ∧ y = (sampleAt rnd s j).2.1 ∧
        z = (sampleAt rnd s j).2.2) := by
      rintro ⟨h1, h2, h3⟩
      apply hne
      rw [h1, h2, h3]
    simp [this]
  · exact countSetBits_succ s _ _ _ _ hjin hoff hbits
  · intro x y z hxyz hon
    rw [hbits x y z hxyz, hon]
    rfl

theorem Cube_GenerateApple_spec_witness :
    ∃ j s1, Cube_GenerateApple 2
        (fun n => if n = 3 then 1 else if n = 4 then 5 else if n = 5 then 5 else 0)
        afterInitState = some s1 ∧
      j ≤ 1 ∧ countSetBits s1 = countSetBits afterInitState + 1 := by
  obtain ⟨j, s1, h1, h2, -, -, -, -, -, h3, -⟩ :=
    Cube_GenerateApple_spec
      (fun n => if n = 3 then 1 else if n = 4 then 5 else if n = 5 then 5 else 0)
      2 afterInitState 1 (by decide) (by decide) (by decide)
  exact ⟨j, s1, h1, h2, h3⟩

/-! ## Setting and clearing a bit -/

/-- C18: for in-bounds coordinates `c = (x, y, z)` and `c1` and a map of 64 bytes:
`Cube_SetBitAt(c)` leaves every byte other than byte `8 * y + x` as it was, and in that
byte every bit other than bit `z`; after it `Cube_IsBitOnAt(c)` is true; after
`Cube_ClearBitAt(c)`, `Cube_IsBitOnAt(c)` is false; and for `c1` different from `c`,
`Cube_IsBitOnAt(c1)` is the same before and after either operation. -/
theorem Cube_SetBitAt_ClearBitAt_spec (s : State) (x y z x1 y1 z1 : Int)
    (hlen : s.Cube_map.length = 64) (hc : InBounds x y z) (hc1 : InBounds x1 y1 z1) :
    (∀ i, i ≠ (8 * y + x).toNat →
      (Cube_SetBitAt x y z s).Cube_map.getD i 0 = s.Cube_map.getD i 0) ∧
    (∀ b, b < 8 → b ≠ z.toNat →
      ((Cube_SetBitAt x y z s).Cube_map.getD (8 * y + x).toNat 0).testBit b
        = (s.Cube_map.getD (8 * y + x).toNat 0).testBit b) ∧
    Cube_IsBitOnAt x y z (Cube_SetBitAt x y z s) = true ∧
    Cube_IsBitOnAt x y z (Cube_ClearBitAt x y z s) = false ∧
    ((x1, y1, z1) ≠ (x, y, z) →
      Cube_IsBitOnAt x1 y1 z1 (Cube_SetBitAt x y z s) = Cube_IsBitOnAt x1 y1 z1 s ∧
      Cube_IsBitOnAt x1 y1 z1 (Cube_ClearBitAt x y z s) = Cube_IsBitOnAt x1 y1 z1 s) := by
  have hidx : (8 * y + x).toNat < s.Cube_map.length := by
    unfold InBounds at hc
    omega
  refine ⟨?_, ?_, ?_, ?_, ?_⟩
  · intro i hi
    unfold Cube_SetBitAt
    simp only
    rw [getD_set_zero, if_neg (fun h => hi h.1.symm)]
  · intro b hb hbz
    unfold Cube_SetBitAt
    simp only
    rw [getD_set_zero, if_pos ⟨rfl, hidx⟩, testBit_setByte _ _ _ hb]
    simp [Ne.symm hbz]
  · rw [Cube_IsBitOnAt_eq_gridBit, gridBit_Cube_SetBitAt s x y z x y z hlen hc hc]
    simp
  · rw [Cube_IsBitOnAt_eq_gridBit, gridBit_Cube_ClearBitAt s x y z x y z hc hc]
    simp
  · intro hne
    have hne1 : ¬ (x1 = x ∧ y1 = y ∧ z1 = z) := by
      rintro ⟨h1, h2, h3⟩
      apply hne
      rw [h1, h2, h3]
    constructor
    · rw [Cube_IsBitOnAt_eq_gridBit, Cube_IsBitOnAt_eq_gridBit,
        gridBit_Cube_SetBitAt s x y z x1 y1 z1 hlen hc hc1]
      simp [hne1]
    · rw [Cube_IsBitOnAt_eq_gridBit, Cube_IsBitOnAt_eq_gridBit,
        gridBit_Cube_ClearBitAt s x y z x1 y1 z1 hc hc1]
      simp [hne1]

theorem Cube_SetBitAt_ClearBitAt_spec_witness :
    Cube_IsBitOnAt 2 5 5 (Cube_SetBitAt 2 5 5 twoSegmentState) = true ∧
    Cube_IsBitOnAt 1 5 5 (Cube_ClearBitAt 1 5 5 twoSegmentState) = false ∧
    Cube_IsBitOnAt 0 5 5 (Cube_ClearBitAt 1 5 5 twoSegmentState)
      = Cube_IsBitOnAt 0 5 5 twoSegmentState :=
  ⟨(Cube_SetBitAt_ClearBitAt_spec twoSegmentState 2 5 5 0 5 5 (by decide) (by decide)
      (by decide)).2.2.1,
    (Cube_SetBitAt_ClearBitAt_spec twoSegmentState 1 5 5 0 5 5 (by decide) (by decide)
      (by decide)).2.2.2.1,
    ((Cube_SetBitAt_ClearBitAt_spec twoSegmentState 1 5 5 0 5 5 (by decide) (by decide)
      (by decide)).2.2.2.2 (by decide)).2⟩

/-! ## Decoding the joystick -/

/-- C19: for every pair of samples, `Controller_GetDirection` is `LEFT` if
`channel2 > 2500`; otherwise `RIGHT` if `channel2 < 1500`; otherwise `UP` if
`channel1 > 2500`; otherwise `DOWN` if `channel1 < 1500`; otherwise `CENTRE`.  So
channel 2 has priority over channel 1, and the result is `CENTRE` exactly when both
samples lie in `[1500, 2500]`. -/
theorem Controller_GetDirection_spec (channel1 channel2 : Int) :
    (channel2 > 2500 → Controller_GetDirection channel1 channel2 = DirectionChange.LEFT) ∧
    (¬ channel2 > 2500 → channel2 < 1500 →
      Controller_GetDirection channel1 channel2 = DirectionChange.RIGHT) ∧
    (¬ channel2 > 2500 → ¬ channel2 < 1500 → channel1 > 2500 →
      Controller_GetDirection channel1 channel2 = DirectionChange.UP) ∧
    (¬ channel2 > 2500 → ¬ channel2 < 1500 → ¬ channel1 > 2500 → channel1 < 1500 →
      Controller_GetDirection channel1 channel2 = DirectionChange.DOWN) ∧
    (¬ channel2 > 2500 → ¬ channel2 < 1500 → ¬ channel1 > 2500 → ¬ channel1 < 1500 →
      Controller_GetDirection channel1 channel2 = DirectionChange.CENTRE) ∧
    (Controller_GetDirection channel1 channel2 = DirectionChange.CENTRE ↔
      (1500 ≤ channel1 ∧ channel1 ≤ 2500) ∧ (1500 ≤ channel2 ∧ channel2 ≤ 2500)) := by
  unfold Controller_GetDirection
  refine ⟨fun h => ?_, fun h1 h2 => ?_, fun h1 h2 h3 => ?_, fun h1 h2 h3 h4 => ?_,
    fun h1 h2 h3 h4 => ?_, ?_⟩
  · rw [if_pos h]
  · rw [if_neg h1, if_pos h2]
  · rw [if_neg h1, if_neg h2, if_pos h3]
  · rw [if_neg h1, if_neg h2, if_neg h3, if_pos h4]
  · rw [if_neg h1, if_neg h2, if_neg h3, if_neg h4]
  · split_ifs with h1 h2 h3 h4
    · simp only [reduceCtorEq, false_iff]; omega
    · simp only [reduceCtorEq, false_iff]; omega
    · simp only [reduceCtorEq, false_iff]; omega
    · simp only [reduceCtorEq, false_iff]; omega
    · simp only [true_iff]; omega

theorem Controller_GetDirection_spec_witness :
    Controller_GetDirection 3000 2600 = DirectionChange.LEFT ∧
    Controller_GetDirection 3000 2000 = DirectionChange.UP ∧
    Controller_GetDirection 2000 2000 = DirectionChange.CENTRE :=
  ⟨(Controller_GetDirection_spec 3000 2600).1 (by decide),
    (Controller_GetDirection_spec 3000 2000).2.2.1 (by decide) (by decide) (by decide),
    (Controller_GetDirection_spec 2000 2000).2.2.2.2.2.2 (by decide)⟩

/-! ## The frame of a turn -/

/-- C20: for every state and every intent, `Snake_Turn` leaves the map, the body and
`Snake_size` unchanged, and the new heading depends only on the old heading and the
intent; for the intent `CENTRE` the heading, and so the whole state, is unchanged. -/
theorem Snake_Turn_frame_effect (directionChange : DirectionChange) (s : State) :
    (Snake_Turn directionChange s).Cube_map = s.Cube_map ∧
    (Snake_Turn directionChange s).Snake_body = s.Snake_body ∧
    (Snake_Turn directionChange s).Snake_size = s.Snake_size ∧
    (∀ s1 : State, s1.Snake_currentDirection = s.Snake_currentDirection →
      (Snake_Turn directionChange s1).Snake_currentDirection
        = (Snake_Turn directionChange s).Snake_currentDirection) ∧
    Snake_Turn DirectionChange.CENTRE s = s := by
  obtain ⟨hmap, hbody, hsize, -⟩ := Snake_Turn_frame directionChange s
  refine ⟨hmap, hbody, hsize, ?_, ?_⟩
  · intro s1 h1
    obtain ⟨size, body, ⟨a, b, c⟩, map, calls⟩ := s
    obtain ⟨size1, body1, ⟨a1, b1, c1⟩, map1, calls1⟩ := s1
    simp only [Prod.mk.injEq] at h1
    obtain ⟨rfl, rfl, rfl⟩ := h1
    cases directionChange
    case CENTRE => rfl
    all_goals
      simp only [Snake_Turn]
      split_ifs <;> rfl
  · obtain ⟨size, body, ⟨a, b, c⟩, map, calls⟩ := s
    rfl

theorem Snake_Turn_frame_effect_witness :
    (Snake_Turn DirectionChange.LEFT afterInitState).Cube_map = afterInitState.Cube_map ∧
    (Snake_Turn DirectionChange.LEFT twoSegmentState).Snake_currentDirection
      = (Snake_Turn DirectionChange.LEFT afterInitState).Snake_currentDirection :=
  ⟨(Snake_Turn_frame_effect DirectionChange.LEFT afterInitState).1,
    (Snake_Turn_frame_effect DirectionChange.LEFT afterInitState).2.2.2.1 twoSegmentState rfl⟩

/-! ## Apple generation always has a free cell -/

/-- C21: in every game run, for every oracle of `rand()` and of the joystick, the map has
a clear bit at an in-bounds coordinate whenever `Cube_GenerateApple` is called: at the call
made by `Snake_Init(0, 5, 5)`, and at the call made in any iteration of the loop, whatever
samples the joystick gives in that iteration.  At a call made in the loop at most 100 of
the 512 grid bits are set. -/
theorem Game_Running_generateCall_clear (rnd : Nat → Nat) (adc : Nat → Int × Int)
    (iteration : Nat) (s : State) (h : Game_Running rnd adc iteration s) :
    (∀ e, Snake_Init_generateCall 0 5 5 Game_initial = some e →
      ∃ x y z, InBounds x y z ∧ Cube_IsBitOnAt x y z e = false) ∧
    (∀ channels e, Game_Iteration_generateCall channels s = some e →
      countSetBits e ≤ 100 ∧ ∃ x y z, InBounds x y z ∧ Cube_IsBitOnAt x y z e = false) := by
  constructor
  · intro e he
    have h0 : (Snake_Init_generateCall 0 5 5 Game_initial).map
        (fun e1 => Cube_IsBitOnAt 0 0 0 e1) = some false := by decide
    rw [he] at h0
    exact ⟨0, 0, 0, by decide, Option.some.inj h0⟩
  · intro channels e he
    have hinv := Game_Running_inv rnd adc iteration s h
    obtain ⟨hgame, -, hsize, hbody⟩ :=
      Snake_Turn_runInvariant_part (Controller_GetDirection channels.1 channels.2) s hinv
    have hcount := Snake_Step_generateCall_count _ e hgame he
    have hle : countSetBits e ≤ 100 := by
      have h1 := hgame.count_eq
      have h2 := hgame.size_eq
      unfold WIN_LENGTH at hsize
      omega
    exact ⟨hle, exists_clear_of_countSetBits_lt e (by omega)⟩

theorem Game_Running_generateCall_clear_witness :
    Game_Running (fun n => if n = 0 then 2 else 5) (fun _ => (2000, 2000)) 0
        appleAheadRunState ∧
      (∃ e, Snake_Init_generateCall 0 5 5 Game_initial = some e ∧
        ∃ x y z, InBounds x y z ∧ Cube_IsBitOnAt x y z e = false) ∧
      (∃ e, Game_Iteration_generateCall (2000, 2000) appleAheadRunState = some e ∧
        e.Snake_body = [⟨2, 5, 5⟩, ⟨1, 5, 5⟩, ⟨0, 5, 5⟩] ∧
        countSetBits e ≤ 100 ∧ ∃ x y z, InBounds x y z ∧ Cube_IsBitOnAt x y z e = false) := by
  have hrun : Game_Running (fun n => if n = 0 then 2 else 5) (fun _ => (2000, 2000)) 0
      appleAheadRunState := Game_Running.start 1 appleAheadRunState (by decide)
  have hinit : Snake_Init_generateCall 0 5 5 Game_initial = some twoSegmentState := by decide
  have hcall : Game_Iteration_generateCall (2000, 2000) appleAheadRunState =
      some { appleAheadRunState with
        Snake_size := 3, Snake_body := [⟨2, 5, 5⟩, ⟨1, 5, 5⟩, ⟨0, 5, 5⟩] } := by decide
  have h := Game_Running_generateCall_clear (fun n => if n = 0 then 2 else 5)
    (fun _ => (2000, 2000)) 0 appleAheadRunState hrun
  exact ⟨hrun, ⟨_, hinit, h.1 _ hinit⟩,
    ⟨_, hcall, rfl, (h.2 (2000, 2000) _ hcall).1, (h.2 (2000, 2000) _ hcall).2⟩⟩

/-! ## The bit functions only receive in-bounds coordinates -/

/-- C22: in every game run, for every oracle of `rand()` and of the joystick, every
coordinate passed to `Cube_SetBitAt`, `Cube_ClearBitAt` and `Cube_IsBitOnAt` has its three
axes in `[0, 8)`, so that the byte index `8 * y + x` is in `[0, 64)` and the shift `z` in
`[0, 8)`: in `Snake_Init(0, 5, 5)` and in any iteration of the loop, whatever samples the
joystick gives in that iteration.  Every body segment is in bounds at the start of every
iteration. -/
theorem Game_Running_calls_inBounds (rnd : Nat → Nat) (adc : Nat → Int × Int)
    (iteration : Nat) (s : State) (h : Game_Running rnd adc iteration s) :
    (∀ fuel, ∀ c ∈ Snake_Init_calls fuel rnd 0 5 5 Game_initial,
      InBounds c.1 c.2.1 c.2.2 ∧
        (0 ≤ 8 * c.2.1 + c.1 ∧ 8 * c.2.1 + c.1 < 64) ∧ (0 ≤ c.2.2 ∧ c.2.2 < 8)) ∧
    (∀ fuel channels, ∀ c ∈ Game_Iteration_calls fuel rnd channels s,
      InBounds c.1 c.2.1 c.2.2 ∧
        (0 ≤ 8 * c.2.1 + c.1 ∧ 8 * c.2.1 + c.1 < 64) ∧ (0 ≤ c.2.2 ∧ c.2.2 < 8)) ∧
    (∀ seg ∈ s.Snake_body, InBounds seg.x seg.y seg.z) := by
  have hrange : ∀ c : Int × Int × Int, InBounds c.1 c.2.1 c.2.2 →
      InBounds c.1 c.2.1 c.2.2 ∧
        (0 ≤ 8 * c.2.1 + c.1 ∧ 8 * c.2.1 + c.1 < 64) ∧ (0 ≤ c.2.2 ∧ c.2.2 < 8) := by
    intro c hc
    refine ⟨hc, ?_⟩
    unfold InBounds at hc
    omega
  have hinv := Game_Running_inv rnd adc iteration s h
  refine ⟨?_, ?_, hinv.game.body.body_inBounds⟩
  · intro fuel c hc
    exact hrange c (Snake_Init_calls_inBounds fuel rnd c hc)
  · intro fuel channels c hc
    obtain ⟨hgame, -⟩ :=
      Snake_Turn_runInvariant_part (Controller_GetDirection channels.1 channels.2) s hinv
    exact hrange c (Snake_Step_calls_inBounds fuel rnd _ hgame.body c hc)

theorem Game_Running_calls_inBounds_witness :
    Game_Running (fun n => n) (fun _ => (2000, 2000)) 0 afterInitState ∧
      ∀ c ∈ Game_Iteration_calls 1 (fun n => n) (2000, 2000) afterInitState,
        InBounds c.1 c.2.1 c.2.2 :=
  ⟨Game_Running.start 1 afterInitState (by decide),
    fun c hc =>
      ((Game_Running_calls_inBounds (fun n => n) (fun _ => (2000, 2000)) 0 afterInitState
        (Game_Running.start 1 afterInitState (by decide))).2.1 1 (2000, 2000) c hc).1⟩

/-! ## The snake never turns back into its neck -/

/-- C23: in every game run, at the start of each iteration of the loop the body has a
head and a segment behind it, and the heading is the head minus that segment; so for every
intent the candidate cell head + heading that `Snake_Step` computes after `Snake_Turn` is
not the cell of the segment behind the head. -/
theorem Game_Running_not_into_neck (rnd : Nat → Nat) (adc : Nat → Int × Int)
    (iteration : Nat) (s : State) (h : Game_Running rnd adc iteration s) :
    ∃ head neck rest, s.Snake_body = head :: neck :: rest ∧
      s.Snake_currentDirection = (head.x - neck.x, head.y - neck.y, head.z - neck.z) ∧
      ∀ directionChange : DirectionChange,
        (Snake_Turn directionChange s).Snake_body = head :: neck :: rest ∧
        (⟨head.x + (Snake_Turn directionChange s).Snake_currentDirection.1,
          head.y + (Snake_Turn directionChange s).Snake_currentDirection.2.1,
          head.z + (Snake_Turn directionChange s).Snake_currentDirection.2.2⟩ : Snake_Segment)
          ≠ neck := by
  have hinv := Game_Running_inv rnd adc iteration s h
  obtain ⟨head, neck, rest, hbody, hdir⟩ := hinv.neck
  refine ⟨head, neck, rest, hbody, hdir, fun directionChange => ⟨?_, ?_⟩⟩
  · rw [(Snake_Turn_frame directionChange s).2.1, hbody]
  · intro hcand
    have hno := (Snake_Turn_direction_of_unit directionChange s hinv.heading_unit).1
    apply hno
    have hx : head.x + (Snake_Turn directionChange s).Snake_currentDirection.1 = neck.x := by
      rw [← hcand]
    have hy : head.y + (Snake_Turn directionChange s).Snake_currentDirection.2.1 = neck.y := by
      rw [← hcand]
    have hz : head.z + (Snake_Turn directionChange s).Snake_currentDirection.2.2 = neck.z := by
      rw [← hcand]
    rw [hdir]
    refine Prod.ext ?_ (Prod.ext ?_ ?_) <;> simp only <;> omega

theorem Game_Running_not_into_neck_witness :
    Game_Running (fun n => n) (fun _ => (2000, 2000)) 0 afterInitState ∧
      ∃ head neck rest, afterInitState.Snake_body = head :: neck :: rest ∧
        afterInitState.Snake_currentDirection
          = (head.x - neck.x, head.y - neck.y, head.z - neck.z) := by
  refine ⟨Game_Running.start 1 afterInitState (by decide), ?_⟩
  obtain ⟨head, neck, rest, h1, h2, -⟩ :=
    Game_Running_not_into_neck (fun n => n) (fun _ => (2000, 2000)) 0 afterInitState
      (Game_Running.start 1 afterInitState (by decide))
  exact ⟨head, neck, rest, h1, h2⟩

end LEDCube
